import Mathlib

/-!
Verification of the ThinkLab host monitor (`hostmon.py`, v1.1.26).

This file gives a shallow embedding of the core of `hostmon.py`:
the stateful rate trackers (`CpuPercent`, `NetRates`), the snapshot
assembly (`build_snapshot` and the subsystem readers it calls), the
JSON serialization used on the wire, and the serial protocol loop
(`serve`).  Machine-level details are modelled as follows: Python
integers are `ℤ`, Python floats are `ℚ` (exact arithmetic; the claims
proved here concern ranges, absence and structure, not binary
rounding), Python `None`-or-value results are `Option`, and a Python
exception escaping a function is the `none`/`error` case of an
`Option`/`Except` result.  Functions that in the source read the OS
(files under `/proc`, `/sys`, external tools) are parameterised by the
text or parsed data they would have read, so that the pure
computation on that data is exactly the source's.

The first part of the file contains only definitions (the embedding);
all theorems follow after it.
-/

/-! ## Definitions -/

/-! ### Python string primitives

`str.strip()` and `str.upper()` as used by `serve`.  We model the
ASCII fragment that the protocol comparison (`== "GET"`) depends on:
`isPySpace` covers the ASCII whitespace stripped by `str.strip()`,
and `pyUpperChar` maps `a`-`z` to `A`-`Z`, leaving everything else
(including already-uppercase letters, digits, punctuation) unchanged,
which is how `str.upper()` acts on ASCII. -/

def isPySpace (c : Char) : Bool :=
  c = ' ' || c = '\t' || c = '\n' || c = '\x0d' || c = '\x0b' || c = '\x0c'

def stripChars (l : List Char) : List Char :=
  List.rdropWhile isPySpace (List.dropWhile isPySpace l)

def pyStrip (s : String) : String :=
  String.mk (stripChars s.data)

def pyUpperChar (c : Char) : Char :=
  if 'a' ≤ c && c ≤ 'z' then Char.ofNat (c.toNat - 32) else c

def pyUpper (s : String) : String :=
  String.mk (s.data.map pyUpperChar)

/-! ### Python numeric primitives

`round(x, n)` (banker's rounding, round-half-to-even as in CPython),
and `int(x)` on a float (truncation toward zero). -/

/-- CPython `round` to an integer: nearest integer, ties to even. -/
def pyRoundInt (q : ℚ) : ℤ :=
  if q - ⌊q⌋ = 1 / 2 then (if Even ⌊q⌋ then ⌊q⌋ else ⌊q⌋ + 1) else round q

/-- CPython `round(x, n)`: round to `n` decimal places, ties to even. -/
def pyRound (q : ℚ) (n : ℕ) : ℚ :=
  (pyRoundInt (q * 10 ^ n) : ℚ) / 10 ^ n

/-- CPython `int(x)` on a float: truncation toward zero. -/
def pyTrunc (q : ℚ) : ℤ :=
  if 0 ≤ q then ⌊q⌋ else ⌈q⌉

/-! ### `CpuPercent` (hostmon.py lines 65-94)

The source stores `prev_total` and `prev_idle`, always assigned
together (both `None` initially, both overwritten on every
`compute()`); we model the pair as one `Option`.  `value` mirrors
`self.value`.  `compute` in the source first calls `_read_stat()`;
here the `(total, idle)` reading it returns is a parameter, so that
the arithmetic on it is exactly the source's. -/

structure CpuPercent where
  prev : Option (ℤ × ℤ)
  value : Option ℚ

def CpuPercent.init : CpuPercent := ⟨none, none⟩

def CpuPercent.compute (s : CpuPercent) (reading : ℤ × ℤ) : CpuPercent × Option ℚ :=
  match s.prev with
  | none => (⟨some reading, none⟩, none)
  | some (pt, pi) =>
      let dt : ℤ := reading.1 - pt
      let di : ℤ := reading.2 - pi
      if dt ≤ 0 then
        (⟨some reading, none⟩, none)
      else
        let usage : ℚ := max 0 (min 100 ((1 - (di : ℚ) / (dt : ℚ)) * 100))
        let v : ℚ := pyRound usage 1
        (⟨some reading, some v⟩, some v)

/-! ### More Python primitives

`str.split()` (whitespace words), `str.splitlines()`, `str.split(":", 1)`,
`int(str)` (optional sign then decimal digits; CPython also strips
whitespace first; the underscore digit-grouping extension is not used by
any input format this program reads), `str.isdigit()`, and Python `dict`
semantics (insertion-ordered, assignment overwrites in place,
`get(k, default)`), modelled on association lists. -/

def isDigitChar (c : Char) : Bool :=
  48 ≤ c.toNat && c.toNat ≤ 57

def digitVal (c : Char) : ℕ := c.toNat - 48

def parseDigits (l : List Char) : Option ℕ :=
  if l.isEmpty then none
  else l.foldl (fun acc c =>
    acc.bind (fun a => if isDigitChar c then some (a * 10 + digitVal c) else none)) (some 0)

def pyParseInt (s : String) : Option ℤ :=
  match stripChars s.data with
  | '-' :: rest => (parseDigits rest).map (fun n => -(n : ℤ))
  | '+' :: rest => (parseDigits rest).map (fun n => (n : ℤ))
  | l => (parseDigits l).map (fun n => (n : ℤ))

def isDigitsStr (s : String) : Bool :=
  !s.data.isEmpty && s.data.all isDigitChar

def pyWords (s : String) : List String :=
  ((s.data.splitOnP isPySpace).filter (fun w => !w.isEmpty)).map String.mk

def pySplitlines (s : String) : List String :=
  if s.data.isEmpty then []
  else
    let parts := (s.data.splitOnP (fun c => c = '\n')).map String.mk
    if s.data.getLast? = some '\n' then parts.dropLast else parts

/-- `ln.split(":", 1)` guarded by `":" in ln`: `none` when there is no
colon, otherwise the text before and after the first colon. -/
def pySplitOnFirstColon (s : String) : Option (String × String) :=
  match s.data.dropWhile (fun c => !(c = ':')) with
  | [] => none
  | _ :: tl => some (String.mk (s.data.takeWhile (fun c => !(c = ':'))), String.mk tl)

def dictSet {α : Type} : List (String × α) → String → α → List (String × α)
  | [], k, v => [(k, v)]
  | (k', v') :: rest, k, v =>
      if k' = k then (k, v) :: rest else (k', v') :: dictSet rest k v

def dictGet {α : Type} (m : List (String × α)) (k : String) (d : α) : α :=
  ((m.find? (fun p => decide (p.1 = k))).map Prod.snd).getD d

/-! ### `NetRates` (hostmon.py lines 97-128)

The source stores `self.prev` (dict) and `self.prev_t`, always assigned
together; we model the pair as one `Option`.  `_read` is `readLines`,
parameterised by the lines of `/proc/net/dev` (`f.readlines()`); a `none`
result models the `ValueError`/`IndexError` the source raises on a line
that contains a colon but lacks nine integer counter fields after it.
`rates` takes the current reading (the seam at `self._read()`) and
`time.time()` as parameters. -/

structure NetRates where
  prev : Option (List (String × ℤ × ℤ) × ℚ)

def NetRates.init : NetRates := ⟨none⟩

/-- One iteration of the `for ln in f.readlines()[2:]` loop of
`NetRates._read`. -/
def NetRates.readStep (acc : Option (List (String × ℤ × ℤ))) (ln : String) :
    Option (List (String × ℤ × ℤ)) :=
  acc.bind fun m =>
    match pySplitOnFirstColon ln with
    | none => some m
    | some (ifname, rest) =>
        let cols := pyWords rest
        match cols.get? 0, cols.get? 8 with
        | some c0, some c8 =>
            match pyParseInt c0, pyParseInt c8 with
            | some rx, some tx => some (dictSet m (pyStrip ifname) (rx, tx))
            | _, _ => none
        | _, _ => none

def NetRates.readLines (lines : List String) : Option (List (String × ℤ × ℤ)) :=
  (lines.drop 2).foldl NetRates.readStep (some [])

def NetRates.rates (s : NetRates) (cur : List (String × ℤ × ℤ)) (t : ℚ) :
    NetRates × ℚ × List (String × ℤ × ℤ) :=
  match s.prev with
  | none => (⟨some (cur, t)⟩, 1, cur.map (fun p => (p.1, (0, 0))))
  | some (prev, pt) =>
      let dt : ℚ := max 0.001 (t - pt)
      let rts := cur.map (fun p =>
        let pr := dictGet prev p.1 p.2
        (p.1, (pyTrunc (((p.2.1 - pr.1 : ℤ) : ℚ) / dt),
               pyTrunc (((p.2.2 - pr.2 : ℤ) : ℚ) / dt))))
      (⟨some (cur, t)⟩, dt, rts)

/-- A `/proc/net/dev` line the source gets through without raising:
either it has no colon (skipped), or fields 0 and 8 after the colon
exist and parse as integers. -/
def lineWellformed (ln : String) : Bool :=
  match pySplitOnFirstColon ln with
  | none => true
  | some pr =>
      let cols := pyWords pr.2
      match cols.get? 0, cols.get? 8 with
      | some c0, some c8 => (pyParseInt c0).isSome && (pyParseInt c8).isSome
      | _, _ => false

/-! ### The protocol loop `serve` (hostmon.py lines 304-355)

`respondsTo` is the dispatch decision of the `while True` body: the raw
line from `readline().decode(errors="ignore")` is stripped; an empty
result is ignored (`continue`); otherwise the command is stripped again,
uppercased and compared to `"GET"`, and only on a match is a response
written.

`runSession` is the loop itself.  One `SEvent` is one iteration's
outcome: `line s wOk` is a `readline` that returned `s` (a read timeout
returns `""`, covered by `line "" _`), where `wOk` says whether
`ser.write` would succeed if this iteration attempts a write;
`readFault` is a `serial.SerialException` out of `readline`;
`otherFault` is any other exception in the body (e.g. out of
`build_snapshot`), which the source answers with a 0.1 s sleep and the
next iteration.  On a `SerialException` the source polls
`os.path.exists(serial_path)` once per second until the device path is
present — `polls k` is the k-th poll's outcome, `hp` states a poll
eventually succeeds (otherwise the source loops forever), and the least
such index `Nat.find hp` is recorded in the `disconnected` outcome —
then sleeps once more and returns from `serve` without reopening the
port: the session ends.  The first component of the result lists the
commands answered with a successful write, in order. -/

def respondsTo (raw : String) : Bool :=
  let line := pyStrip raw
  if line = "" then false
  else pyUpper (pyStrip line) == "GET"

inductive SEvent where
  | line (s : String) (writeOk : Bool)
  | readFault
  | otherFault
deriving DecidableEq

inductive SessionEnd where
  | drained
  | disconnected (waited : ℕ)
deriving DecidableEq

def runSession (polls : ℕ → Bool) (hp : ∃ n, polls n = true) :
    List SEvent → List String × SessionEnd
  | [] => ([], .drained)
  | .readFault :: _ => ([], .disconnected (Nat.find hp))
  | .otherFault :: rest => runSession polls hp rest
  | .line s wOk :: rest =>
      if respondsTo s then
        if wOk then
          let r := runSession polls hp rest
          (s :: r.1, r.2)
        else ([], .disconnected (Nat.find hp))
      else runSession polls hp rest

/-- Device-presence polling sequence used by the examples: the device
path reappears at the fourth poll. -/
def pollsEx : ℕ → Bool := fun n => n == 3

/-! ### Yet more Python primitives used by the readers -/

def pyLowerChar (c : Char) : Char :=
  if 'A' ≤ c && c ≤ 'Z' then Char.ofNat (c.toNat + 32) else c

def pyLower (s : String) : String :=
  String.mk (s.data.map pyLowerChar)

/-- `s.startswith(pre)` (`String.startsWith` at the character level). -/
def pyStartsWith (s pre : String) : Bool :=
  pre.data.isPrefixOf s.data

/-- Python `needle in hay` on strings. -/
def hasSubstr : List Char → List Char → Bool
  | [], needle => needle.isEmpty
  | c :: tl, needle => needle.isPrefixOf (c :: tl) || hasSubstr tl needle

/-- Python `<=` on strings: lexicographic by code point. -/
def charListLe : List Char → List Char → Bool
  | [], _ => true
  | _ :: _, [] => false
  | a :: as, b :: bs => a.toNat < b.toNat || (a.toNat = b.toNat && charListLe as bs)

/-- Python `" ".join(l)`. -/
def joinSpace : List String → String
  | [] => ""
  | [x] => x
  | x :: xs => x ++ " " ++ joinSpace xs

/-- Suffix of `l` after the first occurrence of `marker`, if any. -/
def findAfterMarker (marker : List Char) : List Char → Option (List Char)
  | [] => if marker.isEmpty then some [] else none
  | c :: tl =>
      if marker.isPrefixOf (c :: tl) then some ((c :: tl).drop marker.length)
      else findAfterMarker marker tl

/-- Index of the first occurrence of `marker` in `l`, if any. -/
def findMarkerIdx (marker : List Char) : List Char → Option ℕ
  | [] => if marker.isEmpty then some 0 else none
  | c :: tl =>
      if marker.isPrefixOf (c :: tl) then some 0
      else (findMarkerIdx marker tl).map (· + 1)

/-! ### The environment read by one `build_snapshot` request

Each field carries what one OS access of the source would deliver during
the request.  Fields of `Option` type model accesses whose failure the
source does not catch at that spot: `none` means the access raised.
Where the source wraps both the access and its parsing in one
`try`/`except` (uptime, loadavg, meminfo), missing source and malformed
source are absorbed identically, so the field carries the parsed result
with `none` covering both.  `sh(cmd)` absorbs command failure into `""`,
so tool outputs are total `String`s. -/

structure Env where
  /-- Result of `CpuPercent._read_stat()` — the `(total, idle)` pair; the
  source opens `/proc/stat` and indexes the parsed fields with no
  `try`, so `none` (open failure or malformed line) raises. -/
  procStat : Option (ℤ × ℤ)
  /-- `f.readlines()` of `/proc/net/dev`; `none`: the open raised. -/
  procNetDev : Option (List String)
  /-- `time.time()` at the `rates()` call. -/
  timeNow : ℚ
  /-- `now_ms()`. -/
  nowMs : ℤ
  /-- Parsed `/proc/loadavg` triple; `none`: open or parse raised
  (absorbed by `try`/`except: pass`, keeping the `0.0` defaults). -/
  procLoadavg : Option (ℚ × ℚ × ℚ)
  /-- `uptime_seconds()`: `none` on any failure (absorbed). -/
  procUptime : Option ℤ
  /-- Parsed `/proc/meminfo` as key/value-in-bytes pairs in file order;
  `none`: open or parse raised (absorbed, all four RAM fields `None`). -/
  procMeminfo : Option (List (String × ℤ))
  /-- `os.statvfs("/")` as `(f_frsize, f_blocks, f_bfree)`; the source
  has no `try` here, so `none` raises out of `build_snapshot`. -/
  statvfsRoot : Option (ℤ × ℤ × ℤ)
  /-- `os.listdir("/sys/block")`; no `try` in the source, `none` raises. -/
  sysBlock : Option (List String)
  /-- Output of `sh(f"hdparm -C /dev/{name}")` per device name. -/
  hdparmOut : String → String
  /-- `shutil.which("qm")` is not `None`. -/
  qmPresent : Bool
  /-- Output of the `qm list` pipeline. -/
  qmOut : String
  /-- `shutil.which("pct")` is not `None`. -/
  pctPresent : Bool
  /-- Output of `pct list`. -/
  pctOut : String
  /-- Output of `sh(f"pct config {vmid} | grep -i hostname")` per vmid. -/
  pctConfigOut : ℤ → String
  /-- Output of `sh("ip -4 route show default | head -n1")`. -/
  routeOut : String
  /-- Output of `sh("ip -4 -o addr show")`. -/
  addrOut : String
  /-- `socket.gethostname()`. -/
  hostname : String
  /-- `os.cpu_count() or None`. -/
  cpuCount : Option ℤ

/-! ### Snapshot record shapes (the `resp` dict of `build_snapshot`) -/

structure FsRecord where
  mount : String
  total_bytes : ℤ
  used_bytes : ℤ

structure DiskRecord where
  name : String
  state : Option String
  temp_C : Option ℤ

/-- One entry of `proxmox.vms` / `proxmox.lxcs`; the JSON key of the last
field is `"type"`. -/
structure VmRecord where
  id : ℤ
  name : String
  status : String
  node : String
  vmtype : String

structure ProxmoxInfo where
  vm_running : ℕ
  vm_total : ℕ
  lxc_running : ℕ
  lxc_total : ℕ
  vms : List VmRecord
  lxcs : List VmRecord

/-- One entry of `ip.ipv4_addrs`; the JSON key of `ifname` is `"if"`. -/
structure AddrRecord where
  ifname : String
  addr : String

structure IpBlock where
  primary_ifname : Option String
  primary_ipv4 : Option String
  gateway_ipv4 : Option String
  route_metric : Option ℤ
  ip_status : String
  ipv4_addrs : List AddrRecord

/-- One entry of `net.interfaces`; the JSON key of `ifname` is `"if"`. -/
structure NetIface where
  ifname : String
  rx_Bps : ℤ
  tx_Bps : ℤ
  virtual : Bool

structure NetBlock where
  window_s : ℚ
  total_rx_Bps : ℤ
  total_tx_Bps : ℤ
  total_rx_bps : ℤ
  total_tx_bps : ℤ
  interfaces : List NetIface

structure CpuBlock where
  percent : Option ℚ
  cores : Option ℤ
  load1 : ℚ
  load5 : ℚ
  load15 : ℚ

structure RamBlock where
  total_bytes : Option ℤ
  used_bytes : Option ℤ
  swap_total_bytes : Option ℤ
  swap_used_bytes : Option ℤ

structure Snapshot where
  schema_version : ℤ
  script_version : String
  timestamp_ms : ℤ
  hostname : String
  uptime_s : Option ℤ
  cpu : CpuBlock
  ram : RamBlock
  filesystems : List FsRecord
  proxmox : ProxmoxInfo
  disks : List DiskRecord
  ip : IpBlock
  net : NetBlock

def VERSION : String := "1.1.26"

def SCHEMA : ℤ := 1

/-! ### Subsystem readers (hostmon.py lines 131-251) -/

/-- `mem_info()` on the parsed `/proc/meminfo` map: the four RAM values,
all `None` when the read/parse failed. -/
def mem_info (mi : Option (List (String × ℤ))) :
    Option ℤ × Option ℤ × Option ℤ × Option ℤ :=
  match mi with
  | none => (none, none, none, none)
  | some m =>
      let total := List.lookup "MemTotal" m
      let free := (List.lookup "MemFree" m).getD 0 + (List.lookup "Buffers" m).getD 0 +
        (List.lookup "Cached" m).getD 0 + (List.lookup "SReclaimable" m).getD 0
      let used := match total with
        | some t => some (t - free)
        | none => none
      let swap_t := List.lookup "SwapTotal" m
      let swap_u := (List.lookup "SwapTotal" m).getD 0 - (List.lookup "SwapFree" m).getD 0
      (total, used, swap_t, some swap_u)

/-- `fs_root()`: `os.statvfs("/")` has no `try`, so a failed query
(`none`) propagates. -/
def fs_root (sv : Option (ℤ × ℤ × ℤ)) : Option FsRecord :=
  sv.map (fun v => ⟨"/", v.1 * v.2.1, v.1 * v.2.1 - v.1 * v.2.2⟩)

/-- `^(loop|ram|dm-|md)` at the name's start. -/
def isExcludedBlockName (n : String) : Bool :=
  pyStartsWith n "loop" || pyStartsWith n "ram" || pyStartsWith n "dm-" ||
    pyStartsWith n "md"

/-- Full match of `^(sd[a-z]+)$`. -/
def isSdName (n : String) : Bool :=
  match n.data with
  | 's' :: 'd' :: rest => !rest.isEmpty && rest.all (fun c => 97 ≤ c.toNat && c.toNat ≤ 122)
  | _ => false

/-- Full match of `^(nvme\d+n\d+)$`. -/
def isNvmeName (n : String) : Bool :=
  match n.data with
  | 'n' :: 'v' :: 'm' :: 'e' :: rest =>
      let ds := rest.takeWhile isDigitChar
      let rest2 := rest.drop ds.length
      !ds.isEmpty &&
        (match rest2 with
         | 'n' :: ds2 => !ds2.isEmpty && ds2.all isDigitChar
         | _ => false)
  | _ => false

/-- `list_block_devices()`: filter `/sys/block` names, then `sorted`. -/
def list_block_devices (names : Option (List String)) : Option (List String) :=
  names.map (fun ns =>
    List.insertionSort (fun a b => charListLe a.data b.data = true)
      (ns.filter (fun n => !isExcludedBlockName n && (isSdName n || isNvmeName n))))

/-- Model of `re.search(r"drive state is:\s+(.*)", out)` for outputs in
`hdparm -C`'s single-occurrence format: text after the first
`drive state is:` marker, requiring at least one whitespace character,
greedily skipping whitespace, capturing to the end of the line. -/
def reDriveState (out : String) : Option String :=
  match findAfterMarker "drive state is:".data out.data with
  | none => none
  | some rest =>
      if (rest.takeWhile isPySpace).isEmpty then none
      else some (String.mk ((rest.dropWhile isPySpace).takeWhile (fun c => !(c = '
'))))

/-- `disk_state(devname)`: NVMe devices are reported `"active"` without
consulting the tool; otherwise the `hdparm -C` output is pattern-matched
and mapped, `none` being the absent state (tool missing, failed, or
unrecognized wording). -/
def disk_state (env : Env) (devname : String) : Option String :=
  if pyStartsWith devname "nvme" then some "active"
  else
    match reDriveState (env.hdparmOut devname) with
    | none => none
    | some g =>
        let state := pyLower (pyStrip g)
        if hasSubstr state.data "standby".data then some "standby"
        else if hasSubstr state.data "sleep".data then some "standby"
        else if hasSubstr state.data "active".data || hasSubstr state.data "idle".data then
          some "active"
        else none

/-- `read_disks()`: propagates only the `/sys/block` listing failure. -/
def read_disks (env : Env) : Option (List DiskRecord) :=
  (list_block_devices env.sysBlock).map
    (fun names => names.map (fun n => ⟨n, disk_state env n, none⟩))

/-- Model of `re.search(r'hostname:\s*(.+)$', cfg, re.IGNORECASE)` for
grep's single-line output: capture after the first case-insensitive
`hostname:` marker, skipping whitespace, to the end of the line,
requiring a nonempty capture. -/
def parseHostnameCfg (cfg : String) : Option String :=
  match findMarkerIdx "hostname:".data (cfg.data.map pyLowerChar) with
  | none => none
  | some i =>
      let rest := cfg.data.drop (i + 9)
      let cap := (rest.dropWhile isPySpace).takeWhile (fun c => !(c = '
'))
      if cap.isEmpty then none else some (String.mk cap)

/-- One line of the `qm list` loop of `proxmox_info()`: `none` means the
line is skipped (blank, header, or not `ID NAME... STATUS` shaped). -/
def parseQmLine (node : String) (ln : String) : Option VmRecord :=
  if pyStrip ln = "" then none
  else if pyStartsWith (pyLower ln) "vmid" || pyStartsWith (pyLower ln) "id" then none
  else
    let parts := pyWords ln
    match parts.get? 0 with
    | none => none
    | some p0 =>
        if 3 ≤ parts.length && isDigitsStr p0 then
          (pyParseInt p0).map (fun vmid =>
            let status := pyLower ((parts.getLast?).getD "")
            let name := joinSpace ((parts.drop 1).dropLast)
            ⟨vmid, if name = "" then toString vmid else name, status, node, "qemu"⟩)
        else none

/-- One line of the `pct list` loop: as `parseQmLine`, plus the
hostname-from-config substitution for purely numeric names. -/
def parsePctLine (env : Env) (node : String) (ln : String) : Option VmRecord :=
  if pyStrip ln = "" then none
  else if pyStartsWith (pyLower ln) "vmid" || pyStartsWith (pyLower ln) "id" then none
  else
    let parts := pyWords ln
    match parts.get? 0 with
    | none => none
    | some p0 =>
        if 3 ≤ parts.length && isDigitsStr p0 then
          (pyParseInt p0).map (fun vmid =>
            let status := pyLower ((parts.getLast?).getD "")
            let name0 := joinSpace ((parts.drop 1).dropLast)
            let name :=
              if isDigitsStr name0 then
                match parseHostnameCfg (env.pctConfigOut vmid) with
                | some h => pyStrip h
                | none => name0
              else name0
            ⟨vmid, if name = "" then toString vmid else name, status, node, "lxc"⟩)
        else none

/-- `proxmox_info()`: absent tools yield empty halves, never an error. -/
def proxmox_info (env : Env) : ProxmoxInfo :=
  let node := env.hostname
  let vms := if env.qmPresent then (pySplitlines env.qmOut).filterMap (parseQmLine node) else []
  let lxcs :=
    if env.pctPresent then (pySplitlines env.pctOut).filterMap (parsePctLine env node) else []
  ⟨(vms.filter (fun v => v.status == "running")).length, vms.length,
   (lxcs.filter (fun v => v.status == "running")).length, lxcs.length, vms, lxcs⟩

/-- Model of `re.search(r'default via ([0-9\.]+) dev (\S+)', route)` for
iproute2's single-occurrence output: gateway digits/dots run and
non-whitespace device after the first `default via ` marker. -/
def parseDefaultRoute (s : String) : Option (String × String) :=
  match findAfterMarker "default via ".data s.data with
  | none => none
  | some rest =>
      let gw := rest.takeWhile (fun c => isDigitChar c || c = '.')
      if gw.isEmpty then none
      else
        let rest2 := rest.drop gw.length
        if " dev ".data.isPrefixOf rest2 then
          let dev := (rest2.drop 5).takeWhile (fun c => !(isPySpace c))
          if dev.isEmpty then none else some (String.mk gw, String.mk dev)
        else none

/-- `primary_ip()`: the two `sh` calls absorb command failure into `""`
(empty address list, absent route fields), but indexing `cols[1]` /
`cols[3]` on a malformed address line raises (`none`) with no `try` in
the source. -/
def primary_ip (routeOut addrOut : String) : Option IpBlock :=
  let gd := parseDefaultRoute routeOut
  match (pySplitlines addrOut).mapM (fun ln =>
      let cols := pyWords ln
      match cols.get? 1, cols.get? 3 with
      | some ifname, some cidr => some (⟨ifname, cidr⟩ : AddrRecord)
      | _, _ => none) with
  | none => none
  | some addrs =>
      let dev := gd.map (fun g => g.2)
      let gw := gd.map (fun g => g.1)
      let prim :=
        match dev with
        | none => none
        | some d => (addrs.find? (fun a => a.ifname == d)).map (fun a => a.addr)
      some ⟨dev, prim, gw, none, "ok", addrs⟩

/-! ### `build_snapshot` (hostmon.py lines 253-301) -/

def isVirtualIf (ifn : String) : Bool :=
  ifn == "lo" || pyStartsWith ifn "veth" || pyStartsWith ifn "tap" ||
    pyStartsWith ifn "fw" || pyStartsWith ifn "vmbr"

/-- The `net` object of the snapshot: totals over the unsorted rate
mapping, interfaces from `sorted(rates.items())`. -/
def buildNet (dt : ℚ) (rts : List (String × ℤ × ℤ)) : NetBlock :=
  let total_rx := (rts.map (fun p => p.2.1)).sum
  let total_tx := (rts.map (fun p => p.2.2)).sum
  let ifaces := (List.insertionSort (fun a b => charListLe a.1.data b.1.data = true) rts).map
    (fun p => (⟨p.1, p.2.1, p.2.2, isVirtualIf p.1⟩ : NetIface))
  ⟨pyRound dt 3, total_rx, total_tx, total_rx * 8, total_tx * 8, ifaces⟩

/-- `build_snapshot(cfg, cpu_calc, net_calc)`: assembles the snapshot and
returns the updated tracker states; `none` models an exception escaping
`build_snapshot` (caught only by `serve`'s generic handler, which sends
nothing). -/
def build_snapshot (env : Env) (cpu_calc : CpuPercent) (net_calc : NetRates) :
    Option (Snapshot × CpuPercent × NetRates) := do
  let statReading ← env.procStat
  let cpuR := cpu_calc.compute statReading
  let la := env.procLoadavg.getD (0, 0, 0)
  let netLines ← env.procNetDev
  let cur ← NetRates.readLines netLines
  let netR := net_calc.rates cur env.timeNow
  let fsRec ← fs_root env.statvfsRoot
  let disks ← read_disks env
  let ipb ← primary_ip env.routeOut env.addrOut
  let mi := mem_info env.procMeminfo
  pure (⟨SCHEMA, VERSION, env.nowMs, env.hostname, env.procUptime,
    ⟨cpuR.2, env.cpuCount, la.1, la.2.1, la.2.2⟩,
    ⟨mi.1, mi.2.1, mi.2.2.1, mi.2.2.2⟩,
    [fsRec], proxmox_info env, disks, ipb,
    buildNet netR.2.1 netR.2.2⟩, cpuR.1, netR.1)

/-- A healthy environment for the concrete examples: every uncaught
access succeeds; the absorbed readers are left failing (`none`, absent
tools, empty outputs) to exercise the absorption paths. -/
def envOkBase : Env where
  procStat := some (100, 40)
  procNetDev := some ["Inter-|   Receive", " face |bytes",
    "  eth0: 3000 0 0 0 0 0 0 0 2600 0 0 0 0 0 0 0"]
  timeNow := 10
  nowMs := 10000
  procLoadavg := none
  procUptime := none
  procMeminfo := none
  statvfsRoot := some (4096, 1000, 500)
  sysBlock := some []
  hdparmOut := fun _ => ""
  qmPresent := false
  qmOut := ""
  pctPresent := false
  pctOut := ""
  pctConfigOut := fun _ => ""
  routeOut := ""
  addrOut := ""
  hostname := "host"
  cpuCount := none

/-- The value `build_snapshot` produces on `envOkBase` from fresh tracker
states. -/
def snapOutOk : Snapshot × CpuPercent × NetRates :=
  (⟨1, "1.1.26", 10000, "host", none,
    ⟨none, none, 0, 0, 0⟩,
    ⟨none, none, none, none⟩,
    [⟨"/", 4096000, 2048000⟩],
    ⟨0, 0, 0, 0, [], []⟩,
    [],
    ⟨none, none, none, none, "ok", []⟩,
    ⟨pyRound 1 3, 0, 0, 0, 0, [⟨"eth0", 0, 0, false⟩]⟩⟩,
   ⟨some (100, 40), none⟩,
   ⟨some ([("eth0", (3000, 2600))], 10)⟩)

/-! ### JSON values and `json.dumps(payload, separators=(',', ':'))`

`Json` models the values `build_snapshot`'s payload contains: `None`,
bools, ints, floats, strings, lists, dicts.  A number is carried as a
scaled decimal `m / 10^e` (`e = 0` is an int literal): every float the
payload holds is such a decimal (the `round(_, 1)` / `round(_, 3)`
results and the parsed load averages), and on these `repr`-based float
serialization prints the plain decimal form that `numToChars` produces.
`dumps` is CPython's compact form: separators `','`/`':'`, no spaces,
`ensure_ascii=True` escaping (`\uXXXX` with lowercase hex, surrogate
pairs beyond the BMP). -/

inductive Json where
  | null
  | bool (b : Bool)
  | num (m : ℤ) (e : ℕ)
  | str (s : String)
  | arr (elems : List Json)
  | obj (fields : List (String × Json))

mutual

def jsonSize : Json → ℕ
  | .arr l => jsonSizeList l + 1
  | .obj l => jsonSizeObj l + 1
  | _ => 1

def jsonSizeList : List Json → ℕ
  | [] => 0
  | x :: tl => jsonSize x + jsonSizeList tl + 1

def jsonSizeObj : List (String × Json) → ℕ
  | [] => 0
  | kv :: tl => jsonSize kv.2 + jsonSizeObj tl + 1

end

def hexDigit (n : ℕ) : Char :=
  if n < 10 then Char.ofNat (48 + n) else Char.ofNat (87 + n)

def hex4 (n : ℕ) : List Char :=
  [hexDigit (n / 4096 % 16), hexDigit (n / 256 % 16), hexDigit (n / 16 % 16), hexDigit (n % 16)]

/-- `ensure_ascii` escaping of one character. -/
def escapeChar (c : Char) : List Char :=
  if c = '"' then ['\\', '"']
  else if c = '\\' then ['\\', '\\']
  else if c = '\n' then ['\\', 'n']
  else if c = '\x0d' then ['\\', 'r']
  else if c = '\t' then ['\\', 't']
  else if c = '\x08' then ['\\', 'b']
  else if c = '\x0c' then ['\\', 'f']
  else if c.toNat < 32 || 127 ≤ c.toNat then
    if c.toNat < 65536 then '\\' :: 'u' :: hex4 c.toNat
    else
      ('\\' :: 'u' :: hex4 (55296 + (c.toNat - 65536) / 1024)) ++
        ('\\' :: 'u' :: hex4 (56320 + (c.toNat - 65536) % 1024))
  else [c]

def escapeStr (s : String) : List Char :=
  '"' :: s.data.flatMap escapeChar ++ ['"']

def natDigitsAux (fuel n : ℕ) : List Char :=
  match fuel with
  | 0 => []
  | f + 1 =>
      if n < 10 then [Char.ofNat (48 + n)]
      else Char.ofNat (48 + n % 10) :: natDigitsAux f (n / 10)

def natToCharsRev (n : ℕ) : List Char :=
  natDigitsAux (n + 1) n

def natToChars (n : ℕ) : List Char :=
  (natToCharsRev n).reverse

def natToCharsPadded (n width : ℕ) : List Char :=
  List.replicate (width - (natToChars n).length) '0' ++ natToChars n

/-- Decimal form of `m / 10^e`: the digits CPython prints for the ints
and short-decimal floats of the payload. -/
def numToChars (m : ℤ) (e : ℕ) : List Char :=
  let sign : List Char := if m < 0 then ['-'] else []
  if e = 0 then sign ++ natToChars m.natAbs
  else sign ++ natToChars (m.natAbs / 10 ^ e) ++ '.' :: natToCharsPadded (m.natAbs % 10 ^ e) e

mutual

def dumpsChars : Json → List Char
  | .null => "null".data
  | .bool true => "true".data
  | .bool false => "false".data
  | .num m e => numToChars m e
  | .str s => escapeStr s
  | .arr l => '[' :: dumpsList l ++ [']']
  | .obj l => '\x7b' :: dumpsObj l ++ ['\x7d']

def dumpsList : List Json → List Char
  | [] => []
  | [x] => dumpsChars x
  | x :: y :: tl => dumpsChars x ++ ',' :: dumpsList (y :: tl)

def dumpsObj : List (String × Json) → List Char
  | [] => []
  | [kv] => escapeStr kv.1 ++ ':' :: dumpsChars kv.2
  | kv :: y :: tl => escapeStr kv.1 ++ ':' :: dumpsChars kv.2 ++ ',' :: dumpsObj (y :: tl)

end

def dumps (j : Json) : String :=
  String.mk (dumpsChars j)

/-! ### A JSON reader

`parseVal` is a recursive-descent reader for the compact form above,
used to state that every emitted line is parseable as one JSON value
(and parses back to the value that was serialized).  `fuel` bounds the
nesting depth; `jsonSize j` suffices for `dumps j`. -/

def hexVal (c : Char) : Option ℕ :=
  if 48 ≤ c.toNat && c.toNat ≤ 57 then some (c.toNat - 48)
  else if 97 ≤ c.toNat && c.toNat ≤ 102 then some (c.toNat - 87)
  else if 65 ≤ c.toNat && c.toNat ≤ 70 then some (c.toNat - 55)
  else none

def digitsVal (l : List Char) : ℕ :=
  l.foldl (fun a c => a * 10 + digitVal c) 0

def hex4Val (a b c d : Char) : Option ℕ :=
  match hexVal a, hexVal b, hexVal c, hexVal d with
  | some va, some vb, some vc, some vd => some (((va * 16 + vb) * 16 + vc) * 16 + vd)
  | _, _, _, _ => none

/-- One step of string-body reading: the next decoded character, the
closing quote, or a malformed escape. -/
inductive StrStep where
  | emit (c : Char) (rest : List Char)
  | done (rest : List Char)
  | fail

def uPairN (n : ℕ) : Option ℕ → List Char → StrStep
  | none, _ => .fail
  | some n2, tl4 =>
      if 56320 ≤ n2 && n2 ≤ 57343 then
        .emit (Char.ofNat (65536 + (n - 55296) * 1024 + (n2 - 56320))) tl4
      else .fail

def uPairStep (n : ℕ) : List Char → StrStep
  | '\\' :: 'u' :: a2 :: b2 :: c3 :: d2 :: tl4 => uPairN n (hex4Val a2 b2 c3 d2) tl4
  | _ => .fail

def uStepN : Option ℕ → List Char → StrStep
  | none, _ => .fail
  | some n, tl3 =>
      if 55296 ≤ n && n ≤ 56319 then uPairStep n tl3
      else if 56320 ≤ n && n ≤ 57343 then .fail
      else .emit (Char.ofNat n) tl3

def uStep : List Char → StrStep
  | a :: b :: c2 :: d :: tl3 => uStepN (hex4Val a b c2 d) tl3
  | _ => .fail

def escStep : List Char → StrStep
  | [] => .fail
  | e :: tl2 =>
      if e = '"' then .emit '"' tl2
      else if e = '\\' then .emit '\\' tl2
      else if e = '/' then .emit '/' tl2
      else if e = 'n' then .emit '\n' tl2
      else if e = 'r' then .emit '\x0d' tl2
      else if e = 't' then .emit '\t' tl2
      else if e = 'b' then .emit '\x08' tl2
      else if e = 'f' then .emit '\x0c' tl2
      else if e = 'u' then uStep tl2
      else .fail

def strStep : List Char → StrStep
  | [] => .fail
  | c :: tl =>
      if c = '"' then .done tl
      else if c = '\\' then escStep tl
      else .emit c tl

def parseStrGo : ℕ → List Char → List Char → Option (String × List Char)
  | 0, _, _ => none
  | fuel + 1, acc, l =>
      match strStep l with
      | .fail => none
      | .done rest => some (String.mk acc.reverse, rest)
      | .emit c rest => parseStrGo fuel (c :: acc) rest

def parseStrAcc (acc l : List Char) : Option (String × List Char) :=
  parseStrGo (l.length + 1) acc l

def parseNumPos (l : List Char) : Option ((ℕ × ℕ) × List Char) :=
  let ds := l.takeWhile isDigitChar
  if ds.isEmpty then none
  else
    let r := l.drop ds.length
    if r.head? = some '.' then
      let fs := r.tail.takeWhile isDigitChar
      if fs.isEmpty then none
      else some ((digitsVal ds * 10 ^ fs.length + digitsVal fs, fs.length), r.tail.drop fs.length)
    else some ((digitsVal ds, 0), r)

def parseNum (l : List Char) : Option ((ℤ × ℕ) × List Char) :=
  if l.head? = some '-' then
    (parseNumPos l.tail).map (fun p => ((-(p.1.1 : ℤ), p.1.2), p.2))
  else
    (parseNumPos l).map (fun p => (((p.1.1 : ℤ), p.1.2), p.2))

mutual

def parseVal : ℕ → List Char → Option (Json × List Char)
  | 0, _ => none
  | fuel + 1, l =>
      match l with
      | [] => none
      | c :: rest =>
          if c = 'n' then
            if ['u', 'l', 'l'].isPrefixOf rest then some (.null, rest.drop 3) else none
          else if c = 't' then
            if ['r', 'u', 'e'].isPrefixOf rest then some (.bool true, rest.drop 3) else none
          else if c = 'f' then
            if ['a', 'l', 's', 'e'].isPrefixOf rest then some (.bool false, rest.drop 4) else none
          else if c = '"' then
            (parseStrAcc [] rest).map (fun p => (.str p.1, p.2))
          else if c = '[' then
            if rest.head? = some ']' then some (.arr [], rest.tail)
            else (parseElems fuel rest).map (fun p => (.arr p.1, p.2))
          else if c = '\x7b' then
            if rest.head? = some '\x7d' then some (.obj [], rest.tail)
            else (parseMembers fuel rest).map (fun p => (.obj p.1, p.2))
          else
            (parseNum (c :: rest)).map (fun p => (.num p.1.1 p.1.2, p.2))

def parseElems : ℕ → List Char → Option (List Json × List Char)
  | 0, _ => none
  | fuel + 1, l =>
      match parseVal fuel l with
      | none => none
      | some (v, r) =>
          match r with
          | ',' :: r2 =>
              match parseElems fuel r2 with
              | none => none
              | some (vs, r3) => some (v :: vs, r3)
          | ']' :: r2 => some ([v], r2)
          | _ => none

def parseMembers : ℕ → List Char → Option (List (String × Json) × List Char)
  | 0, _ => none
  | fuel + 1, l =>
      match l with
      | '"' :: r0 =>
          match parseStrAcc [] r0 with
          | none => none
          | some (k, r1) =>
              match r1 with
              | ':' :: r2 =>
                  match parseVal fuel r2 with
                  | none => none
                  | some (v, r) =>
                      match r with
                      | ',' :: r3 =>
                          match parseMembers fuel r3 with
                          | none => none
                          | some (kvs, r4) => some ((k, v) :: kvs, r4)
                      | '\x7d' :: r3 => some ([(k, v)], r3)
                      | _ => none
              | _ => none
      | _ => none

end

/-! ### Serializing the snapshot

`json.dumps` maps `None` to `null`, ints to int literals, floats to
their `repr` (for the payload's decimal-valued floats, the plain
decimal form), strings with escaping, lists to arrays and dicts to
objects in insertion order.  `ratToDec?` converts a rational to the
scaled-decimal number form; it succeeds exactly when the value is a
decimal, which holds for every float the payload carries (results of
`round(_, 1)` / `round(_, 3)` and floats parsed from decimal text).
`serveResponse` is the write `serve` performs on a recognized GET:
`json.dumps(payload, separators=(',',':'))` followed by one `"\n"`. -/

def ratToDec? (q : ℚ) : Option (ℤ × ℕ) :=
  ((List.range (q.den + 1)).find? (fun e => decide (q.den ∣ 10 ^ e))).map
    (fun e => (q.num * (((10 ^ e : ℕ) / q.den : ℕ) : ℤ), e))

def intJson (n : ℤ) : Json := .num n 0

def natJson (n : ℕ) : Json := .num n 0

def optJson {α : Type} (f : α → Json) : Option α → Json
  | none => .null
  | some a => f a

def fsJson (f : FsRecord) : Json :=
  .obj [("mount", .str f.mount), ("total_bytes", intJson f.total_bytes),
    ("used_bytes", intJson f.used_bytes)]

def vmJson (v : VmRecord) : Json :=
  .obj [("id", intJson v.id), ("name", .str v.name), ("status", .str v.status),
    ("node", .str v.node), ("type", .str v.vmtype)]

def proxmoxJson (p : ProxmoxInfo) : Json :=
  .obj [("vm_running", natJson p.vm_running), ("vm_total", natJson p.vm_total),
    ("lxc_running", natJson p.lxc_running), ("lxc_total", natJson p.lxc_total),
    ("vms", .arr (p.vms.map vmJson)), ("lxcs", .arr (p.lxcs.map vmJson))]

def diskJson (d : DiskRecord) : Json :=
  .obj [("name", .str d.name), ("state", optJson Json.str d.state),
    ("temp_C", optJson intJson d.temp_C)]

def addrJson (a : AddrRecord) : Json :=
  .obj [("if", .str a.ifname), ("addr", .str a.addr)]

def ipJson (ip : IpBlock) : Json :=
  .obj [("primary_ifname", optJson Json.str ip.primary_ifname),
    ("primary_ipv4", optJson Json.str ip.primary_ipv4),
    ("gateway_ipv4", optJson Json.str ip.gateway_ipv4),
    ("route_metric", optJson intJson ip.route_metric),
    ("ip_status", .str ip.ip_status),
    ("ipv4_addrs", .arr (ip.ipv4_addrs.map addrJson))]

def ifaceJson (i : NetIface) : Json :=
  .obj [("if", .str i.ifname), ("rx_Bps", intJson i.rx_Bps), ("tx_Bps", intJson i.tx_Bps),
    ("virtual", .bool i.virtual)]

def toJson (snap : Snapshot) : Option Json := do
  let percent ← match snap.cpu.percent with
    | none => some Json.null
    | some q => (ratToDec? q).map (fun d => Json.num d.1 d.2)
  let load1 ← (ratToDec? snap.cpu.load1).map (fun d => Json.num d.1 d.2)
  let load5 ← (ratToDec? snap.cpu.load5).map (fun d => Json.num d.1 d.2)
  let load15 ← (ratToDec? snap.cpu.load15).map (fun d => Json.num d.1 d.2)
  let windowJ ← (ratToDec? snap.net.window_s).map (fun d => Json.num d.1 d.2)
  pure (Json.obj [
    ("schema_version", intJson snap.schema_version),
    ("script_version", .str snap.script_version),
    ("timestamp_ms", intJson snap.timestamp_ms),
    ("hostname", .str snap.hostname),
    ("uptime_s", optJson intJson snap.uptime_s),
    ("cpu", .obj [("percent", percent), ("cores", optJson intJson snap.cpu.cores),
      ("load1", load1), ("load5", load5), ("load15", load15)]),
    ("ram", .obj [("total_bytes", optJson intJson snap.ram.total_bytes),
      ("used_bytes", optJson intJson snap.ram.used_bytes),
      ("swap_total_bytes", optJson intJson snap.ram.swap_total_bytes),
      ("swap_used_bytes", optJson intJson snap.ram.swap_used_bytes)]),
    ("filesystems", .arr (snap.filesystems.map fsJson)),
    ("proxmox", proxmoxJson snap.proxmox),
    ("disks", .arr (snap.disks.map diskJson)),
    ("ip", ipJson snap.ip),
    ("net", .obj [("window_s", windowJ),
      ("total_rx_Bps", intJson snap.net.total_rx_Bps),
      ("total_tx_Bps", intJson snap.net.total_tx_Bps),
      ("total_rx_bps", intJson snap.net.total_rx_bps),
      ("total_tx_bps", intJson snap.net.total_tx_bps),
      ("interfaces", .arr (snap.net.interfaces.map ifaceJson))])])

def serveResponse (snap : Snapshot) : Option String :=
  (toJson snap).map (fun j => dumps j ++ "\n")

/-- A concrete snapshot with decimal-literal floats, for the examples. -/
def snapW : Snapshot :=
  ⟨1, "1.1.26", 123, "host", none,
   ⟨none, none, 0, 0, 0⟩,
   ⟨none, none, none, none⟩,
   [⟨"/", 4096000, 2048000⟩],
   ⟨0, 0, 0, 0, [], []⟩,
   [],
   ⟨none, none, none, none, "ok", []⟩,
   ⟨2, 1000, 300, 8000, 2400, [⟨"eth0", 1000, 300, false⟩]⟩⟩

/-- Boundary condition for number reading: the remainder begins with no digit
and no dot, so the number's digits end where the serializer put their end. -/
def numBoundary (r : List Char) : Prop :=
  ∀ c, r.head? = some c → isDigitChar c = false ∧ c ≠ '.'

/-- The JSON value `toJson` produces for `snapW`. -/
def jW : Json :=
  .obj [
    ("schema_version", .num 1 0),
    ("script_version", .str "1.1.26"),
    ("timestamp_ms", .num 123 0),
    ("hostname", .str "host"),
    ("uptime_s", .null),
    ("cpu", .obj [("percent", .null), ("cores", .null),
      ("load1", .num 0 0), ("load5", .num 0 0), ("load15", .num 0 0)]),
    ("ram", .obj [("total_bytes", .null), ("used_bytes", .null),
      ("swap_total_bytes", .null), ("swap_used_bytes", .null)]),
    ("filesystems", .arr [.obj [("mount", .str "/"), ("total_bytes", .num 4096000 0),
      ("used_bytes", .num 2048000 0)]]),
    ("proxmox", .obj [("vm_running", .num 0 0), ("vm_total", .num 0 0),
      ("lxc_running", .num 0 0), ("lxc_total", .num 0 0),
      ("vms", .arr []), ("lxcs", .arr [])]),
    ("disks", .arr []),
    ("ip", .obj [("primary_ifname", .null), ("primary_ipv4", .null), ("gateway_ipv4", .null),
      ("route_metric", .null), ("ip_status", .str "ok"), ("ipv4_addrs", .arr [])]),
    ("net", .obj [("window_s", .num 2 0),
      ("total_rx_Bps", .num 1000 0), ("total_tx_Bps", .num 300 0),
      ("total_rx_bps", .num 8000 0), ("total_tx_bps", .num 2400 0),
      ("interfaces", .arr [.obj [("if", .str "eth0"), ("rx_Bps", .num 1000 0),
        ("tx_Bps", .num 300 0), ("virtual", .bool false)]])])]

/-! ## Theorems -/

theorem stripChars_idem (l : List Char) : stripChars (stripChars l) = stripChars l := by
  unfold stripChars
  have h1 : List.dropWhile isPySpace
      (List.rdropWhile isPySpace (List.dropWhile isPySpace l)) =
      List.rdropWhile isPySpace (List.dropWhile isPySpace l) := by
    rw [List.dropWhile_eq_self_iff]
    intro hl
    have hne : List.rdropWhile isPySpace (List.dropWhile isPySpace l) ≠ [] := by
      intro h
      rw [h] at hl
      simp at hl
    have hpre := List.rdropWhile_prefix isPySpace (List.dropWhile isPySpace l)
    have hdne : List.dropWhile isPySpace l ≠ [] := by
      intro h
      apply hne
      rw [h, List.rdropWhile_nil]
    have hhead := hpre.head hne
    have hnot := List.head_dropWhile_not isPySpace l hdne
    intro hp
    rw [List.get_mk_zero, hhead, hnot] at hp
    exact Bool.false_ne_true hp
  rw [h1, List.rdropWhile_idempotent]

theorem pyStrip_idem (s : String) : pyStrip (pyStrip s) = pyStrip s := by
  unfold pyStrip
  simp [stripChars_idem]

theorem abs_pyRoundInt_sub_le (q : ℚ) : |(pyRoundInt q : ℚ) - q| ≤ 1 / 2 := by
  unfold pyRoundInt
  by_cases h : q - ⌊q⌋ = 1 / 2
  · by_cases he : Even ⌊q⌋
    · rw [if_pos h, if_pos he]
      have h2 : (⌊q⌋ : ℚ) - q = -(1 / 2) := by linarith
      rw [h2, abs_neg, abs_of_nonneg (by norm_num : (0 : ℚ) ≤ 1 / 2)]
    · rw [if_pos h, if_neg he]
      have h2 : ((⌊q⌋ + 1 : ℤ) : ℚ) - q = 1 / 2 := by push_cast; linarith
      rw [h2, abs_of_nonneg (by norm_num : (0 : ℚ) ≤ 1 / 2)]
  · rw [if_neg h, abs_sub_comm]
    exact abs_sub_round q

theorem pyRoundInt_mem_Icc {a b : ℤ} {q : ℚ} (ha : (a : ℚ) ≤ q) (hb : q ≤ (b : ℚ)) :
    a ≤ pyRoundInt q ∧ pyRoundInt q ≤ b := by
  have habs := abs_pyRoundInt_sub_le q
  rw [abs_le] at habs
  constructor
  · have h1 : (a : ℚ) < (pyRoundInt q : ℚ) + 1 := by linarith
    have h2 : a < pyRoundInt q + 1 := by exact_mod_cast h1
    omega
  · have h1 : (pyRoundInt q : ℚ) < (b : ℚ) + 1 := by linarith
    have h2 : pyRoundInt q < b + 1 := by exact_mod_cast h1
    omega

theorem pyRound_one_decimal_bounds {q : ℚ} (h0 : 0 ≤ q) (h100 : q ≤ 100) :
    0 ≤ pyRound q 1 ∧ pyRound q 1 ≤ 100 ∧ pyRound q 1 * 10 = ((pyRoundInt (q * 10) : ℤ) : ℚ) := by
  have hlo : ((0 : ℤ) : ℚ) ≤ q * 10 := by push_cast; linarith
  have hhi : q * 10 ≤ ((1000 : ℤ) : ℚ) := by push_cast; linarith
  obtain ⟨hl, hr⟩ := pyRoundInt_mem_Icc hlo hhi
  have hl' : (0 : ℚ) ≤ (pyRoundInt (q * 10) : ℚ) := by exact_mod_cast hl
  have hr' : (pyRoundInt (q * 10) : ℚ) ≤ 1000 := by exact_mod_cast hr
  have hdef : pyRound q 1 = (pyRoundInt (q * 10) : ℚ) / 10 := by
    unfold pyRound
    norm_num
  refine ⟨?_, ?_, ?_⟩
  · rw [hdef]
    linarith
  · rw [hdef]
    linarith
  · rw [hdef, div_mul_cancel₀]
    norm_num

/-- Claim C3: the CPU RateTracker's first `compute()` call always returns
absent and stores the current reading as the prior; a second call given two
monotonically increasing readings returns a value in `[0, 100]` with one
decimal place (ten times the value is an integer). -/
theorem cpu_first_sample_law (s0 : CpuPercent) (h0 : s0.prev = none)
    (r1 r2 : ℤ × ℤ) (ht : r1.1 < r2.1) (hi : r1.2 ≤ r2.2) :
    (s0.compute r1).2 = none ∧
    (s0.compute r1).1.prev = some r1 ∧
    ∃ q : ℚ, ((s0.compute r1).1.compute r2).2 = some q ∧
      0 ≤ q ∧ q ≤ 100 ∧ ∃ n : ℤ, q * 10 = (n : ℚ) := by
  rcases r1 with ⟨t1, i1⟩
  rcases r2 with ⟨t2, i2⟩
  have h1 : s0.compute (t1, i1) = (⟨some (t1, i1), none⟩, none) := by
    simp [CpuPercent.compute, h0]
  refine ⟨by rw [h1], by rw [h1], ?_⟩
  rw [h1]
  have hdt : ¬ (t2 - t1 ≤ 0) := by simp at ht ⊢; omega
  have h2 : ((⟨some (t1, i1), none⟩ : CpuPercent).compute (t2, i2)).2 =
      some (pyRound (max 0 (min 100 ((1 - ((i2 - i1 : ℤ) : ℚ) / ((t2 - t1 : ℤ) : ℚ)) * 100))) 1) := by
    simp only [CpuPercent.compute]
    rw [if_neg hdt]
  set x : ℚ := (1 - ((i2 - i1 : ℤ) : ℚ) / ((t2 - t1 : ℤ) : ℚ)) * 100 with hx
  have husage0 : (0 : ℚ) ≤ max 0 (min 100 x) := le_max_left _ _
  have husage100 : max 0 (min 100 x) ≤ 100 := max_le (by norm_num) (min_le_left _ _)
  obtain ⟨b0, b100, bdec⟩ := pyRound_one_decimal_bounds husage0 husage100
  exact ⟨pyRound (max 0 (min 100 x)) 1, h2, b0, b100,
    pyRoundInt (max 0 (min 100 x) * 10), bdec⟩

theorem cpu_first_sample_law_witness :
    (CpuPercent.init.compute (100, 40)).2 = none ∧
    (CpuPercent.init.compute (100, 40)).1.prev = some (100, 40) ∧
    ∃ q : ℚ, ((CpuPercent.init.compute (100, 40)).1.compute (200, 80)).2 = some q ∧
      0 ≤ q ∧ q ≤ 100 ∧ ∃ n : ℤ, q * 10 = (n : ℚ) :=
  cpu_first_sample_law CpuPercent.init rfl (100, 40) (200, 80) (by norm_num) (by norm_num)

/-- Claim C4: when the total bucket does not advance (`delta_total ≤ 0`),
`compute()` returns absent, and the stored prior is nevertheless replaced
with the current reading. -/
theorem cpu_no_advance_absent (s : CpuPercent) (pt pi : ℤ) (h : s.prev = some (pt, pi))
    (r : ℤ × ℤ) (hd : r.1 - pt ≤ 0) :
    (s.compute r).2 = none ∧ (s.compute r).1.prev = some r := by
  rcases r with ⟨t, i⟩
  simp only [CpuPercent.compute, h]
  have hd' : t - pt ≤ 0 := hd
  rw [if_pos hd']
  exact ⟨rfl, rfl⟩

theorem cpu_no_advance_absent_witness :
    ((⟨some (10, 5), none⟩ : CpuPercent).compute (10, 7)).2 = none ∧
    ((⟨some (10, 5), none⟩ : CpuPercent).compute (10, 7)).1.prev = some (10, 7) :=
  cpu_no_advance_absent _ 10 5 rfl (10, 7) (by norm_num)

/-- Claim C5: the network RateTracker's first `rates()` call returns
window `1.0` and a mapping giving every interface present in the current
reading the rate `(0, 0)` regardless of absolute counter values, and
stores the current mapping and timestamp as the prior. -/
theorem net_first_call_zero (s : NetRates) (h : s.prev = none)
    (cur : List (String × ℤ × ℤ)) (t : ℚ) :
    (s.rates cur t).2.1 = 1 ∧
    (s.rates cur t).2.2 = cur.map (fun p => (p.1, (0, 0))) ∧
    (s.rates cur t).1.prev = some (cur, t) := by
  simp [NetRates.rates, h]

theorem net_first_call_zero_witness :
    (NetRates.init.rates [("eth0", (123456789, 987654321)), ("wlan0", (5, 7))] 42).2.1 = 1 ∧
    (NetRates.init.rates [("eth0", (123456789, 987654321)), ("wlan0", (5, 7))] 42).2.2 =
      [("eth0", (0, 0)), ("wlan0", (0, 0))] ∧
    (NetRates.init.rates [("eth0", (123456789, 987654321)), ("wlan0", (5, 7))] 42).1.prev =
      some ([("eth0", (123456789, 987654321)), ("wlan0", (5, 7))], 42) :=
  net_first_call_zero NetRates.init rfl _ 42

/-- Claim C6: on a subsequent `rates()` call, with
`dt = max(0.001, now - prior_timestamp)`, each interface present in the
current reading gets rate `(current - prior) / dt` truncated toward zero,
using the current value as prior for newly seen interfaces (`dictGet`'s
default) and producing entries only for current interfaces (vanished ones
are dropped); the prior mapping and timestamp are replaced. -/
theorem net_subsequent_rates (s : NetRates) (prev : List (String × ℤ × ℤ)) (pt : ℚ)
    (h : s.prev = some (prev, pt)) (cur : List (String × ℤ × ℤ)) (t : ℚ) :
    (s.rates cur t).2.1 = max 0.001 (t - pt) ∧
    (s.rates cur t).2.2 = cur.map (fun p =>
        (p.1, (pyTrunc (((p.2.1 - (dictGet prev p.1 p.2).1 : ℤ) : ℚ) / max 0.001 (t - pt)),
               pyTrunc (((p.2.2 - (dictGet prev p.1 p.2).2 : ℤ) : ℚ) / max 0.001 (t - pt))))) ∧
    (s.rates cur t).1.prev = some (cur, t) := by
  simp [NetRates.rates, h]

theorem net_subsequent_rates_witness :
    ((⟨some ([("eth0", (1000, 2000))], 0)⟩ : NetRates).rates [("eth0", (3000, 2600))] 2).2.1 = 2 ∧
    ((⟨some ([("eth0", (1000, 2000))], 0)⟩ : NetRates).rates [("eth0", (3000, 2600))] 2).2.2 =
      [("eth0", (1000, 300))] ∧
    ((⟨some ([("eth0", (1000, 2000))], 0)⟩ : NetRates).rates [("eth0", (3000, 2600))] 2).1.prev =
      some ([("eth0", (3000, 2600))], 2) := by
  have h := net_subsequent_rates (⟨some ([("eth0", (1000, 2000))], 0)⟩ : NetRates)
    [("eth0", (1000, 2000))] 0 rfl [("eth0", (3000, 2600))] 2
  obtain ⟨h1, h2, h3⟩ := h
  have hdt : max (0.001 : ℚ) (2 - 0) = 2 := by
    rw [show (2 : ℚ) - 0 = 2 by norm_num, max_eq_right (by norm_num : (0.001 : ℚ) ≤ 2)]
  refine ⟨by rw [h1, hdt], ?_, h3⟩
  rw [h2]
  simp only [List.map, dictGet, List.find?, pyTrunc]
  norm_num

theorem dictSet_key_origin {α : Type} (m : List (String × α)) (k : String) (v : α)
    (e : String × α) (he : e ∈ dictSet m k v) : e.1 = k ∨ ∃ e0 ∈ m, e.1 = e0.1 := by
  induction m with
  | nil =>
      simp only [dictSet, List.mem_singleton] at he
      subst he
      exact Or.inl rfl
  | cons hd tl ih =>
      rcases hd with ⟨k', v'⟩
      simp only [dictSet] at he
      by_cases hk : k' = k
      · rw [if_pos hk] at he
        rcases List.mem_cons.mp he with h1 | h1
        · subst h1
          exact Or.inl rfl
        · exact Or.inr ⟨e, List.mem_cons_of_mem _ h1, rfl⟩
      · rw [if_neg hk] at he
        rcases List.mem_cons.mp he with h1 | h1
        · subst h1
          exact Or.inr ⟨(k', v'), List.mem_cons_self _ _, rfl⟩
        · rcases ih h1 with h2 | ⟨e0, he0, h3⟩
          · exact Or.inl h2
          · exact Or.inr ⟨e0, List.mem_cons_of_mem _ he0, h3⟩

theorem dictSet_mem_self {α : Type} (m : List (String × α)) (k : String) (v : α) :
    (k, v) ∈ dictSet m k v := by
  induction m with
  | nil => simp [dictSet]
  | cons hd tl ih =>
      rcases hd with ⟨k', v'⟩
      simp only [dictSet]
      by_cases hk : k' = k
      · rw [if_pos hk]
        exact List.mem_cons_self _ _
      · rw [if_neg hk]
        exact List.mem_cons_of_mem _ ih

theorem dictSet_preserves_keys {α : Type} (m : List (String × α)) (k : String) (v : α)
    (e0 : String × α) (he0 : e0 ∈ m) : ∃ e ∈ dictSet m k v, e.1 = e0.1 := by
  induction m with
  | nil => simp at he0
  | cons hd tl ih =>
      rcases hd with ⟨k', v'⟩
      simp only [dictSet]
      by_cases hk : k' = k
      · rw [if_pos hk]
        rcases List.mem_cons.mp he0 with h1 | h1
        · subst h1
          refine ⟨(k, v), List.mem_cons_self _ _, ?_⟩
          rw [hk]
        · exact ⟨e0, List.mem_cons_of_mem _ h1, rfl⟩
      · rw [if_neg hk]
        rcases List.mem_cons.mp he0 with h1 | h1
        · subst h1
          exact ⟨(k', v'), List.mem_cons_self _ _, rfl⟩
        · obtain ⟨e, he, heq⟩ := ih h1
          exact ⟨e, List.mem_cons_of_mem _ he, heq⟩

theorem readStep_ok (ln : String) (h : lineWellformed ln = true)
    (m0 : List (String × ℤ × ℤ)) :
    ∃ m, NetRates.readStep (some m0) ln = some m ∧
      (∀ e ∈ m, (∃ e0 ∈ m0, e.1 = e0.1) ∨
        ∃ pr, pySplitOnFirstColon ln = some pr ∧ e.1 = pyStrip pr.1) ∧
      (∀ e0 ∈ m0, ∃ e ∈ m, e.1 = e0.1) ∧
      (∀ pr, pySplitOnFirstColon ln = some pr → ∃ e ∈ m, e.1 = pyStrip pr.1) := by
  rcases hsp : pySplitOnFirstColon ln with _ | ⟨pif, prest⟩
  · refine ⟨m0, by simp [NetRates.readStep, hsp], fun e he => Or.inl ⟨e, he, rfl⟩,
      fun e0 he0 => ⟨e0, he0, rfl⟩, fun pr hpr => ?_⟩
    exact Option.noConfusion hpr
  · simp only [lineWellformed, hsp] at h
    rcases hc0 : (pyWords prest).get? 0 with _ | c0
    · rw [hc0] at h
      rcases hc8 : (pyWords prest).get? 8 with _ | c8 <;> rw [hc8] at h <;> simp at h
    · rw [hc0] at h
      rcases hc8 : (pyWords prest).get? 8 with _ | c8
      · rw [hc8] at h
        simp at h
      · rw [hc8] at h
        simp only [Bool.and_eq_true, Option.isSome_iff_exists] at h
        obtain ⟨⟨rx, hrx⟩, ⟨tx, htx⟩⟩ := h
        refine ⟨dictSet m0 (pyStrip pif) (rx, tx), ?_, ?_, ?_, ?_⟩
        · rw [List.get?_eq_getElem?] at hc0 hc8
          simp [NetRates.readStep, hsp, hc0, hc8, hrx, htx]
        · intro e he
          rcases dictSet_key_origin m0 _ _ e he with h1 | h1
          · exact Or.inr ⟨(pif, prest), rfl, h1⟩
          · exact Or.inl h1
        · intro e0 he0
          exact dictSet_preserves_keys m0 _ _ e0 he0
        · intro pr hpr
          obtain rfl : (pif, prest) = pr := Option.some.inj hpr
          exact ⟨(pyStrip pif, (rx, tx)), dictSet_mem_self m0 _ _, rfl⟩

theorem readFold_ok (ls : List String) (h : ∀ ln ∈ ls, lineWellformed ln = true)
    (m0 : List (String × ℤ × ℤ)) :
    ∃ m, ls.foldl NetRates.readStep (some m0) = some m ∧
      (∀ e ∈ m, (∃ e0 ∈ m0, e.1 = e0.1) ∨
        ∃ ln ∈ ls, ∃ pr, pySplitOnFirstColon ln = some pr ∧ e.1 = pyStrip pr.1) ∧
      (∀ e0 ∈ m0, ∃ e ∈ m, e.1 = e0.1) ∧
      (∀ ln ∈ ls, ∀ pr, pySplitOnFirstColon ln = some pr →
        ∃ e ∈ m, e.1 = pyStrip pr.1) := by
  induction ls generalizing m0 with
  | nil =>
      exact ⟨m0, rfl, fun e he => Or.inl ⟨e, he, rfl⟩, fun e0 he0 => ⟨e0, he0, rfl⟩,
        fun ln hln => absurd hln (List.not_mem_nil _)⟩
  | cons ln tl ih =>
      have hln := h ln (List.mem_cons_self _ _)
      obtain ⟨m1, hm1, hor1, hpres1, hcomp1⟩ := readStep_ok ln hln m0
      have htl : ∀ l ∈ tl, lineWellformed l = true := fun l hl => h l (List.mem_cons_of_mem _ hl)
      obtain ⟨m, hm, hor, hpres, hcomp⟩ := ih htl m1
      refine ⟨m, ?_, ?_, ?_, ?_⟩
      · rw [List.foldl_cons, hm1]
        exact hm
      · intro e he
        rcases hor e he with ⟨e1, he1, heq⟩ | ⟨l, hl, pr, hpr, heq⟩
        · rcases hor1 e1 he1 with ⟨e0, he0, heq0⟩ | ⟨pr, hpr, heq0⟩
          · exact Or.inl ⟨e0, he0, heq.trans heq0⟩
          · exact Or.inr ⟨ln, List.mem_cons_self _ _, pr, hpr, heq.trans heq0⟩
        · exact Or.inr ⟨l, List.mem_cons_of_mem _ hl, pr, hpr, heq⟩
      · intro e0 he0
        obtain ⟨e1, he1, heq1⟩ := hpres1 e0 he0
        obtain ⟨e, he, heq⟩ := hpres e1 he1
        exact ⟨e, he, heq.trans heq1⟩
      · intro l hl pr hpr
        rcases List.mem_cons.mp hl with h1 | h1
        · subst h1
          obtain ⟨e1, he1, heq1⟩ := hcomp1 pr hpr
          obtain ⟨e, he, heq⟩ := hpres e1 he1
          exact ⟨e, he, heq.trans heq1⟩
        · exact hcomp l h1 pr hpr

/-- Counterexample to claim C7 as stated: a malformed line that does
contain a colon (`"eth0: abc"`: no ninth counter field) is not skipped —
the source raises (`int("abc")`/`cols[8]`), modelled as `none`. -/
theorem net_read_raises_on_malformed :
    NetRates.readLines ["Inter-|   Receive", " face |bytes", "eth0: abc"] = none := by rfl

/-- Claim C7 (amended): the counter read skips the two header lines and
every line without a colon; provided every remaining line is either
colon-free or has integer fields 0 and 8 after its colon, no exception is
raised and the result holds an entry exactly for the colon lines: every
produced entry's key is the stripped name of one of the colon lines, and
every colon line's stripped name is the key of a produced entry. -/
theorem net_read_wellformed_total (lines : List String)
    (h : ∀ ln ∈ lines.drop 2, lineWellformed ln = true) :
    ∃ m, NetRates.readLines lines = some m ∧
      (∀ e ∈ m, ∃ ln ∈ lines.drop 2, ∃ pr,
        pySplitOnFirstColon ln = some pr ∧ e.1 = pyStrip pr.1) ∧
      (∀ ln ∈ lines.drop 2, ∀ pr, pySplitOnFirstColon ln = some pr →
        ∃ e ∈ m, e.1 = pyStrip pr.1) := by
  obtain ⟨m, hm, hor, _, hcomp⟩ := readFold_ok (lines.drop 2) h []
  refine ⟨m, hm, fun e he => ?_, hcomp⟩
  rcases hor e he with ⟨e0, he0, _⟩ | h2
  · simp at he0
  · exact h2

theorem net_read_wellformed_total_witness :
    ∃ m, NetRates.readLines ["Inter-|   Receive", " face |bytes",
        "  eth0: 3000 0 0 0 0 0 0 0 2600 0 0 0 0 0 0 0", "no colon here"] = some m ∧
      (∀ e ∈ m, ∃ ln ∈ (["Inter-|   Receive", " face |bytes",
        "  eth0: 3000 0 0 0 0 0 0 0 2600 0 0 0 0 0 0 0", "no colon here"] :
          List String).drop 2, ∃ pr,
        pySplitOnFirstColon ln = some pr ∧ e.1 = pyStrip pr.1) ∧
      (∀ ln ∈ (["Inter-|   Receive", " face |bytes",
        "  eth0: 3000 0 0 0 0 0 0 0 2600 0 0 0 0 0 0 0", "no colon here"] :
          List String).drop 2, ∀ pr, pySplitOnFirstColon ln = some pr →
        ∃ e ∈ m, e.1 = pyStrip pr.1) :=
  net_read_wellformed_total _ (by decide)

/-- Claim C1: for every received serial line, after trimming whitespace,
the protocol loop responds exactly when the line uppercase-normalizes to
the literal `"GET"`; `"get"`, `"GET"`, `"Get"` trigger a response and
`"status"`, `""`, `"GETX"` trigger none. -/
theorem get_dispatch :
    (∀ raw : String, respondsTo raw = true ↔ pyUpper (pyStrip raw) = "GET") ∧
    respondsTo "get" = true ∧ respondsTo "GET" = true ∧ respondsTo "Get" = true ∧
    respondsTo "status" = false ∧ respondsTo "" = false ∧ respondsTo "GETX" = false := by
  refine ⟨?_, by decide, by decide, by decide, by decide, by decide, by decide⟩
  intro raw
  by_cases h : pyStrip raw = ""
  · have hr : respondsTo raw = false := by simp [respondsTo, h]
    rw [hr]
    simp only [Bool.false_eq_true, false_iff]
    rw [h]
    decide
  · have hr : respondsTo raw = (pyUpper (pyStrip (pyStrip raw)) == "GET") := by
      simp [respondsTo, h]
    rw [hr, pyStrip_idem]
    exact beq_iff_eq

/-- Claim C9: on any serial I/O fault during read or write, the protocol
loop waits — with no timeout, until the first successful device-presence
poll — for the serial device path, then terminates the session: the
session's outcome is `disconnected`, the commands answered are exactly
those of the fault-free prefix, and events after the fault are never
handled (the result does not depend on `post`); the handle is never
reopened, since `serve` returns. -/
theorem serial_fault_ends_session (polls : ℕ → Bool) (hp : ∃ n, polls n = true)
    (pre post : List SEvent) (f : SEvent)
    (hf : f = .readFault ∨ ∃ s, f = .line s false ∧ respondsTo s = true)
    (hpre : ∀ e ∈ pre, e ≠ .readFault ∧ ∀ s, e = .line s false → respondsTo s = false) :
    runSession polls hp (pre ++ f :: post) =
      ((runSession polls hp pre).1, .disconnected (Nat.find hp)) ∧
    polls (Nat.find hp) = true ∧ ∀ k < Nat.find hp, polls k = false := by
  refine ⟨?_, Nat.find_spec hp, fun k hk => by simpa using Nat.find_min hp hk⟩
  induction pre with
  | nil =>
      rcases hf with hf | ⟨s, hf, hr⟩
      · subst hf
        rfl
      · subst hf
        simp [runSession, hr]
  | cons e tl ih =>
      have he := hpre e (List.mem_cons_self _ _)
      have htl : ∀ x ∈ tl, x ≠ SEvent.readFault ∧
          ∀ s, x = SEvent.line s false → respondsTo s = false :=
        fun x hx => hpre x (List.mem_cons_of_mem _ hx)
      cases e with
      | readFault => exact absurd rfl he.1
      | otherFault =>
          simp only [List.cons_append, runSession, List.append_eq]
          exact ih htl
      | line s wOk =>
          by_cases hr : respondsTo s
          · cases wOk
            · exact absurd (he.2 s rfl) (by simp [hr])
            · simp only [List.cons_append, runSession, hr, if_true, List.append_eq]
              rw [ih htl]
          · simp only [List.cons_append, runSession, hr, if_false, List.append_eq]
            exact ih htl

theorem serial_fault_ends_session_witness :
    runSession pollsEx ⟨3, rfl⟩
      [.line "GET" true, .line "status" true, .readFault, .line "GET" true] =
      (["GET"], .disconnected 3) := by
  have h := serial_fault_ends_session pollsEx ⟨3, rfl⟩
    [.line "GET" true, .line "status" true] [.line "GET" true] .readFault
    (Or.inl rfl)
    (by
      intro e he
      fin_cases he <;> exact ⟨by simp, by intro s hs; simp at hs⟩)
  obtain ⟨h1, h2, h3⟩ := h
  have hf : Nat.find (⟨3, rfl⟩ : ∃ n, pollsEx n = true) = 3 := by
    rw [Nat.find_eq_iff]
    exact ⟨rfl, by decide⟩
  rw [show ([SEvent.line "GET" true, .line "status" true, .readFault, .line "GET" true] :
        List SEvent) =
      [SEvent.line "GET" true, .line "status" true] ++ .readFault :: [SEvent.line "GET" true]
    from rfl]
  rw [h1, hf]
  rfl

theorem mapM_isSome {α β : Type} (f : α → Option β) (l : List α)
    (h : ∀ x ∈ l, (f x).isSome) : (l.mapM f).isSome := by
  induction l with
  | nil => rfl
  | cons x xs ih =>
      rw [List.mapM_cons]
      obtain ⟨y, hy⟩ := Option.isSome_iff_exists.mp (h x (List.mem_cons_self _ _))
      obtain ⟨ys, hys⟩ := Option.isSome_iff_exists.mp
        (ih (fun z hz => h z (List.mem_cons_of_mem _ hz)))
      rw [hy, hys]
      rfl

theorem primary_ip_total (routeOut addrOut : String)
    (h : ∀ ln ∈ pySplitlines addrOut, 4 ≤ (pyWords ln).length) :
    (primary_ip routeOut addrOut).isSome := by
  unfold primary_ip
  have hm : ((pySplitlines addrOut).mapM (fun ln =>
      match (pyWords ln).get? 1, (pyWords ln).get? 3 with
      | some ifname, some cidr => some (⟨ifname, cidr⟩ : AddrRecord)
      | _, _ => none)).isSome := by
    apply mapM_isSome
    intro ln hln
    have h4 := h ln hln
    have h1 : ((pyWords ln).get? 1).isSome := by
      rw [Option.isSome_iff_ne_none]
      intro hc
      rw [List.get?_eq_none] at hc
      omega
    have h3 : ((pyWords ln).get? 3).isSome := by
      rw [Option.isSome_iff_ne_none]
      intro hc
      rw [List.get?_eq_none] at hc
      omega
    obtain ⟨a, ha⟩ := Option.isSome_iff_exists.mp h1
    obtain ⟨b, hb⟩ := Option.isSome_iff_exists.mp h3
    rw [ha, hb]
    rfl
  obtain ⟨addrs, haddrs⟩ := Option.isSome_iff_exists.mp hm
  rw [haddrs]
  rfl

/-- Claim C2 (amended): provided the accesses the source does not guard
succeed — the `/proc/stat` read, the `/proc/net/dev` read and its
parsing, `os.statvfs("/")`, the `/sys/block` listing, and each address
line having at least four columns — `build_snapshot` completes for every
combination of failures of the absorbed readers (uptime, loadavg,
meminfo, power-state tool, virtualization tools, route/address
commands), with the corresponding fields null (or the loadavg `0.0`
defaults, or an empty inventory). -/
theorem build_snapshot_absorbs (env : Env)
    (hstat : env.procStat.isSome)
    (hnd : ∃ lines, env.procNetDev = some lines ∧ (NetRates.readLines lines).isSome)
    (hsv : env.statvfsRoot.isSome)
    (hblk : env.sysBlock.isSome)
    (haddr : ∀ ln ∈ pySplitlines env.addrOut, 4 ≤ (pyWords ln).length)
    (cpu_calc : CpuPercent) (net_calc : NetRates) :
    ∃ out, build_snapshot env cpu_calc net_calc = some out ∧
      out.1.uptime_s = env.procUptime ∧
      (env.procMeminfo = none → out.1.ram = ⟨none, none, none, none⟩) ∧
      (env.procLoadavg = none →
        out.1.cpu.load1 = 0 ∧ out.1.cpu.load5 = 0 ∧ out.1.cpu.load15 = 0) ∧
      (env.qmPresent = false → env.pctPresent = false →
        out.1.proxmox = ⟨0, 0, 0, 0, [], []⟩) := by
  obtain ⟨r, hr⟩ := Option.isSome_iff_exists.mp hstat
  obtain ⟨lines, hl, hcur⟩ := hnd
  obtain ⟨cur, hc⟩ := Option.isSome_iff_exists.mp hcur
  obtain ⟨v, hv⟩ := Option.isSome_iff_exists.mp hsv
  obtain ⟨bl, hb⟩ := Option.isSome_iff_exists.mp hblk
  obtain ⟨ipb, hip⟩ := Option.isSome_iff_exists.mp
    (primary_ip_total env.routeOut env.addrOut haddr)
  unfold build_snapshot
  simp only [hr, hl, hc, hip, Option.bind_eq_bind, Option.some_bind, fs_root, hv, Option.map_some',
    read_disks, list_block_devices, hb]
  refine ⟨_, rfl, rfl, ?_, ?_, ?_⟩
  · intro hmi
    simp [mem_info, hmi]
  · intro hla
    simp [hla]
  · intro hq hp
    simp [proxmox_info, hq, hp]

theorem build_snapshot_absorbs_witness :
    ∃ out, build_snapshot envOkBase CpuPercent.init NetRates.init = some out ∧
      out.1.uptime_s = envOkBase.procUptime ∧
      (envOkBase.procMeminfo = none → out.1.ram = ⟨none, none, none, none⟩) ∧
      (envOkBase.procLoadavg = none →
        out.1.cpu.load1 = 0 ∧ out.1.cpu.load5 = 0 ∧ out.1.cpu.load15 = 0) ∧
      (envOkBase.qmPresent = false → envOkBase.pctPresent = false →
        out.1.proxmox = ⟨0, 0, 0, 0, [], []⟩) :=
  build_snapshot_absorbs envOkBase (by rfl)
    ⟨["Inter-|   Receive", " face |bytes",
      "  eth0: 3000 0 0 0 0 0 0 0 2600 0 0 0 0 0 0 0"], rfl, by rfl⟩
    (by rfl) (by rfl) (by decide)
    CpuPercent.init NetRates.init

/-- Counterexample to claim C2 as stated: in an otherwise healthy
environment where only `os.statvfs("/")` fails, snapshot assembly does
not complete — the exception passes `build_snapshot` (`fs_root` has no
handler). -/
theorem build_snapshot_raises_on_statvfs :
    build_snapshot { envOkBase with statvfsRoot := none } CpuPercent.init NetRates.init =
      none := by rfl

theorem buildNet_consistent (dt : ℚ) (rts : List (String × ℤ × ℤ)) :
    (buildNet dt rts).total_rx_Bps = ((buildNet dt rts).interfaces.map NetIface.rx_Bps).sum ∧
    (buildNet dt rts).total_tx_Bps = ((buildNet dt rts).interfaces.map NetIface.tx_Bps).sum := by
  unfold buildNet
  have hperm := List.perm_insertionSort
    (fun a b => charListLe a.1.data b.1.data = true) rts
  constructor
  · rw [List.map_map]
    exact ((hperm.map (fun p => p.2.1)).sum_eq).symm
  · rw [List.map_map]
    exact ((hperm.map (fun p => p.2.2)).sum_eq).symm

/-- Claim C10: in every assembled snapshot, `net.total_rx_Bps` and
`net.total_tx_Bps` equal the sums of `rx_Bps`/`tx_Bps` over
`net.interfaces`, and `net.total_rx_bps`/`net.total_tx_bps` are exactly
8 times the byte totals. -/
theorem net_totals_consistent (env : Env) (cs : CpuPercent) (ns : NetRates)
    (out : Snapshot × CpuPercent × NetRates)
    (h : build_snapshot env cs ns = some out) :
    out.1.net.total_rx_Bps = (out.1.net.interfaces.map NetIface.rx_Bps).sum ∧
    out.1.net.total_tx_Bps = (out.1.net.interfaces.map NetIface.tx_Bps).sum ∧
    out.1.net.total_rx_bps = 8 * out.1.net.total_rx_Bps ∧
    out.1.net.total_tx_bps = 8 * out.1.net.total_tx_Bps := by
  unfold build_snapshot at h
  rcases hr : env.procStat with _ | r
  · rw [hr] at h
    exact absurd h (by simp)
  · rw [hr] at h
    simp only [Option.bind_eq_bind, Option.some_bind] at h
    rcases hl : env.procNetDev with _ | lines
    · rw [hl] at h
      exact absurd h (by simp)
    · rw [hl] at h
      simp only [Option.bind_eq_bind, Option.some_bind] at h
      rcases hc : NetRates.readLines lines with _ | cur
      · rw [hc] at h
        exact absurd h (by simp)
      · rw [hc] at h
        simp only [Option.bind_eq_bind, Option.some_bind] at h
        rcases hf : fs_root env.statvfsRoot with _ | fsRec
        · rw [hf] at h
          exact absurd h (by simp)
        · rw [hf] at h
          simp only [Option.bind_eq_bind, Option.some_bind] at h
          rcases hd : read_disks env with _ | disks
          · rw [hd] at h
            exact absurd h (by simp)
          · rw [hd] at h
            simp only [Option.bind_eq_bind, Option.some_bind] at h
            rcases hip : primary_ip env.routeOut env.addrOut with _ | ipb
            · rw [hip] at h
              exact absurd h (by simp)
            · rw [hip] at h
              simp only [Option.bind_eq_bind, Option.some_bind, Option.pure_def, Option.some.injEq] at h
              subst h
              obtain ⟨h1, h2⟩ := buildNet_consistent ((ns.rates cur env.timeNow).2.1)
                ((ns.rates cur env.timeNow).2.2)
              refine ⟨h1, h2, ?_, ?_⟩
              · simp only [buildNet]
                ring
              · simp only [buildNet]
                ring

theorem net_totals_consistent_witness :
    build_snapshot envOkBase CpuPercent.init NetRates.init = some snapOutOk ∧
    (snapOutOk.1.net.total_rx_Bps = (snapOutOk.1.net.interfaces.map NetIface.rx_Bps).sum ∧
     snapOutOk.1.net.total_tx_Bps = (snapOutOk.1.net.interfaces.map NetIface.tx_Bps).sum ∧
     snapOutOk.1.net.total_rx_bps = 8 * snapOutOk.1.net.total_rx_Bps ∧
     snapOutOk.1.net.total_tx_bps = 8 * snapOutOk.1.net.total_tx_Bps) :=
  ⟨rfl, net_totals_consistent envOkBase CpuPercent.init NetRates.init snapOutOk rfl⟩

theorem char_valid_range (c : Char) :
    c.toNat < 55296 ∨ (57343 < c.toNat ∧ c.toNat < 1114112) := by
  have h := c.valid
  rcases h with h | ⟨h1, h2⟩
  · left
    exact_mod_cast h
  · right
    exact ⟨by exact_mod_cast h1, by exact_mod_cast h2⟩

theorem hexVal_hexDigit (x : ℕ) (h : x < 16) : hexVal (hexDigit x) = some x := by
  interval_cases x <;> decide

theorem hex4Val_digits (x1 x2 x3 x4 : ℕ) (h1 : x1 < 16) (h2 : x2 < 16) (h3 : x3 < 16)
    (h4 : x4 < 16) :
    hex4Val (hexDigit x1) (hexDigit x2) (hexDigit x3) (hexDigit x4) =
      some (((x1 * 16 + x2) * 16 + x3) * 16 + x4) := by
  unfold hex4Val
  rw [hexVal_hexDigit x1 h1, hexVal_hexDigit x2 h2, hexVal_hexDigit x3 h3, hexVal_hexDigit x4 h4]

theorem strStep_cons (c : Char) (tl : List Char) :
    strStep (c :: tl) =
      if c = '"' then .done tl else if c = '\\' then escStep tl else .emit c tl := rfl

theorem uStepN_some (n : ℕ) (tl3 : List Char) :
    uStepN (some n) tl3 =
      if 55296 ≤ n && n ≤ 56319 then uPairStep n tl3
      else if 56320 ≤ n && n ≤ 57343 then .fail
      else .emit (Char.ofNat n) tl3 := rfl

theorem uPairN_some (n n2 : ℕ) (tl4 : List Char) :
    uPairN n (some n2) tl4 =
      if 56320 ≤ n2 && n2 ≤ 57343 then
        .emit (Char.ofNat (65536 + (n - 55296) * 1024 + (n2 - 56320))) tl4
      else .fail := rfl

theorem escU (n : ℕ) (R : List Char) :
    strStep (('\\' :: 'u' :: hex4 n) ++ R) =
      uStepN (hex4Val (hexDigit (n / 4096 % 16)) (hexDigit (n / 256 % 16))
        (hexDigit (n / 16 % 16)) (hexDigit (n % 16))) R := by
  unfold hex4
  rfl

theorem uStepN_digits (n : ℕ) (h : n < 65536) (R : List Char) :
    uStepN (hex4Val (hexDigit (n / 4096 % 16)) (hexDigit (n / 256 % 16))
      (hexDigit (n / 16 % 16)) (hexDigit (n % 16))) R = uStepN (some n) R := by
  rw [hex4Val_digits _ _ _ _ (by omega) (by omega) (by omega) (by omega)]
  have hn : ((n / 4096 % 16 * 16 + n / 256 % 16) * 16 + n / 16 % 16) * 16 + n % 16 = n := by
    omega
  rw [hn]

theorem uStepN_plain (n : ℕ) (hval : n < 55296 ∨ 57343 < n) (R : List Char) :
    uStepN (some n) R = .emit (Char.ofNat n) R := by
  rw [uStepN_some]
  rw [if_neg (by simp only [Bool.and_eq_true, decide_eq_true_eq]; omega),
    if_neg (by simp only [Bool.and_eq_true, decide_eq_true_eq]; omega)]

theorem uStepN_sur (n : ℕ) (h : 55296 ≤ n ∧ n ≤ 56319) (R : List Char) :
    uStepN (some n) R = uPairStep n R := by
  rw [uStepN_some]
  rw [if_pos (by simp only [Bool.and_eq_true, decide_eq_true_eq]; omega)]

theorem uPairA (hi lo : ℕ) (T : List Char) :
    uPairStep hi (('\\' :: 'u' :: hex4 lo) ++ T) =
      uPairN hi (hex4Val (hexDigit (lo / 4096 % 16)) (hexDigit (lo / 256 % 16))
        (hexDigit (lo / 16 % 16)) (hexDigit (lo % 16))) T := by
  unfold hex4
  rfl

theorem uPairB (hi lo : ℕ) (hlo : lo < 65536) (hsur : 56320 ≤ lo ∧ lo ≤ 57343) (T : List Char) :
    uPairN hi (hex4Val (hexDigit (lo / 4096 % 16)) (hexDigit (lo / 256 % 16))
        (hexDigit (lo / 16 % 16)) (hexDigit (lo % 16))) T =
      .emit (Char.ofNat (65536 + (hi - 55296) * 1024 + (lo - 56320))) T := by
  rw [hex4Val_digits _ _ _ _ (by omega) (by omega) (by omega) (by omega)]
  have hlo4 : ((lo / 4096 % 16 * 16 + lo / 256 % 16) * 16 + lo / 16 % 16) * 16 + lo % 16 = lo := by
    omega
  rw [hlo4, uPairN_some]
  rw [if_pos (by simp only [Bool.and_eq_true, decide_eq_true_eq]; omega)]

theorem strStep_esc_bmp (c : Char) (T : List Char) (hbmp : c.toNat < 65536)
    (hval : c.toNat < 55296 ∨ 57343 < c.toNat) :
    strStep (('\\' :: 'u' :: hex4 c.toNat) ++ T) = .emit c T := by
  rw [escU c.toNat T, uStepN_digits c.toNat hbmp T, uStepN_plain c.toNat hval T,
    Char.ofNat_toNat]

theorem strStep_esc_pair (c : Char) (T : List Char) (hbmp : ¬c.toNat < 65536)
    (hup : c.toNat < 1114112) :
    strStep ((('\\' :: 'u' :: hex4 (55296 + (c.toNat - 65536) / 1024)) ++
      ('\\' :: 'u' :: hex4 (56320 + (c.toNat - 65536) % 1024))) ++ T) = .emit c T := by
  rw [List.append_assoc]
  rw [escU (55296 + (c.toNat - 65536) / 1024) (('\\' :: 'u' ::
    hex4 (56320 + (c.toNat - 65536) % 1024)) ++ T)]
  rw [uStepN_digits (55296 + (c.toNat - 65536) / 1024) (by omega)]
  rw [uStepN_sur (55296 + (c.toNat - 65536) / 1024) (by omega)]
  rw [uPairA (55296 + (c.toNat - 65536) / 1024) (56320 + (c.toNat - 65536) % 1024) T]
  rw [uPairB (55296 + (c.toNat - 65536) / 1024) (56320 + (c.toNat - 65536) % 1024)
    (by omega) (by omega) T]
  have harith : 65536 + (55296 + (c.toNat - 65536) / 1024 - 55296) * 1024 +
      (56320 + (c.toNat - 65536) % 1024 - 56320) = c.toNat := by omega
  rw [harith, Char.ofNat_toNat]

theorem strStep_esc (c : Char) (T : List Char) :
    strStep (escapeChar c ++ T) = .emit c T := by
  by_cases hr1 : c = '"'
  · subst hr1
    rfl
  by_cases hr2 : c = '\\'
  · subst hr2
    rfl
  by_cases hr3 : c = '\n'
  · subst hr3
    rfl
  by_cases hr4 : c = '\x0d'
  · subst hr4
    rfl
  by_cases hr5 : c = '\t'
  · subst hr5
    rfl
  by_cases hr6 : c = '\x08'
  · subst hr6
    rfl
  by_cases hr7 : c = '\x0c'
  · subst hr7
    rfl
  by_cases hrange : (decide (c.toNat < 32) || decide (127 ≤ c.toNat)) = true
  · have hesc : escapeChar c = (if c.toNat < 65536 then '\\' :: 'u' :: hex4 c.toNat
        else ('\\' :: 'u' :: hex4 (55296 + (c.toNat - 65536) / 1024)) ++
          ('\\' :: 'u' :: hex4 (56320 + (c.toNat - 65536) % 1024))) := by
      unfold escapeChar
      rw [if_neg hr1, if_neg hr2, if_neg hr3, if_neg hr4, if_neg hr5, if_neg hr6, if_neg hr7,
        if_pos hrange]
    by_cases hbmp : c.toNat < 65536
    · rw [hesc, if_pos hbmp]
      refine strStep_esc_bmp c T hbmp ?_
      rcases char_valid_range c with h | ⟨ha, _⟩
      · exact Or.inl h
      · exact Or.inr ha
    · rw [hesc, if_neg hbmp]
      refine strStep_esc_pair c T hbmp ?_
      rcases char_valid_range c with h | ⟨_, hb⟩
      · omega
      · exact hb
  · have hesc : escapeChar c = [c] := by
      unfold escapeChar
      rw [if_neg hr1, if_neg hr2, if_neg hr3, if_neg hr4, if_neg hr5, if_neg hr6, if_neg hr7,
        if_neg hrange]
    rw [hesc, List.cons_append, List.nil_append, strStep_cons, if_neg hr1, if_neg hr2]

theorem escapeChar_ne_nil (c : Char) : escapeChar c ≠ [] := by
  intro h
  have h2 := strStep_esc c []
  rw [h, List.nil_append] at h2
  rw [show strStep [] = StrStep.fail from rfl] at h2
  exact StrStep.noConfusion h2

theorem parseStrGo_rt (cs : List Char) : ∀ (fuel : ℕ) (acc rest : List Char),
    (cs.flatMap escapeChar ++ '"' :: rest).length ≤ fuel →
    parseStrGo fuel acc (cs.flatMap escapeChar ++ '"' :: rest) =
      some (String.mk (acc.reverse ++ cs), rest) := by
  induction cs with
  | nil =>
      intro fuel acc rest hf
      simp only [List.flatMap_nil, List.nil_append] at hf ⊢
      match fuel, hf with
      | f + 1, _ =>
        rw [parseStrGo.eq_2, strStep_cons, if_pos rfl]
        simp
  | cons c cs ih =>
      intro fuel acc rest hf
      have hflat : (c :: cs).flatMap escapeChar ++ '"' :: rest =
          escapeChar c ++ (cs.flatMap escapeChar ++ '"' :: rest) := by
        simp [List.flatMap_cons, List.append_assoc]
      rw [hflat] at hf ⊢
      have hlen1 : 0 < (escapeChar c).length := by
        cases hc : escapeChar c with
        | nil => exact absurd hc (escapeChar_ne_nil c)
        | cons x t => simp
      have hfuel1 : 1 ≤ fuel := by
        simp only [List.length_append] at hf
        omega
      match fuel, hfuel1 with
      | f + 1, _ =>
        rw [parseStrGo.eq_2, strStep_esc c _]
        have hbound : (cs.flatMap escapeChar ++ '"' :: rest).length ≤ f := by
          simp only [List.length_append] at hf ⊢
          omega
        show parseStrGo f (c :: acc) (cs.flatMap escapeChar ++ '"' :: rest) =
          some (String.mk (acc.reverse ++ c :: cs), rest)
        rw [ih f (c :: acc) rest hbound]
        simp [List.reverse_cons, List.append_assoc]

theorem parseStrAcc_rt (cs acc rest : List Char) :
    parseStrAcc acc (cs.flatMap escapeChar ++ '"' :: rest) =
      some (String.mk (acc.reverse ++ cs), rest) := by
  unfold parseStrAcc
  exact parseStrGo_rt cs _ acc rest (by omega)

theorem toNat_ofNat_small (n : ℕ) (h : n < 55296) : (Char.ofNat n).toNat = n := by
  have hv : n.isValidChar := Or.inl h
  unfold Char.ofNat
  rw [dif_pos hv]
  rfl

theorem isDigit_ofNat_digit (n : ℕ) (h : n < 10) : isDigitChar (Char.ofNat (48 + n)) = true := by
  have ht : (Char.ofNat (48 + n)).toNat = 48 + n := toNat_ofNat_small _ (by omega)
  simp [isDigitChar, ht]
  omega

theorem digitVal_ofNat (n : ℕ) (h : n < 10) : digitVal (Char.ofNat (48 + n)) = n := by
  have ht : (Char.ofNat (48 + n)).toNat = 48 + n := toNat_ofNat_small _ (by omega)
  simp [digitVal, ht]

theorem digitsVal_go (b : List Char) :
    ∀ i : ℕ, b.foldl (fun a c => a * 10 + digitVal c) i = i * 10 ^ b.length + digitsVal b := by
  induction b with
  | nil => intro i; simp [digitsVal]
  | cons c t ih =>
      intro i
      have hd : digitsVal (c :: t) = digitVal c * 10 ^ t.length + digitsVal t := by
        simp only [digitsVal, List.foldl_cons]
        have h2 := ih (0 * 10 + digitVal c)
        simpa using h2
      simp only [List.foldl_cons, List.length_cons, hd]
      rw [ih (i * 10 + digitVal c)]
      ring

theorem digitsVal_append (a b : List Char) :
    digitsVal (a ++ b) = digitsVal a * 10 ^ b.length + digitsVal b := by
  simp only [digitsVal, List.foldl_append]
  exact digitsVal_go b _

theorem natDigitsAux_spec (n : ℕ) : ∀ f, n < f →
    natDigitsAux f n ≠ [] ∧ (∀ c ∈ natDigitsAux f n, isDigitChar c = true) ∧
      digitsVal (natDigitsAux f n).reverse = n := by
  induction n using Nat.strong_induction_on with
  | _ n ih =>
      intro f hf
      match f, hf with
      | f' + 1, _ =>
        by_cases h10 : n < 10
        · simp only [natDigitsAux, if_pos h10]
          refine ⟨by simp, ?_, ?_⟩
          · intro c hc
            simp at hc
            subst hc
            exact isDigit_ofNat_digit n h10
          · simp [digitsVal, digitVal_ofNat n h10]
        · simp only [natDigitsAux, if_neg h10]
          have hrec := ih (n / 10) (by omega) f' (by omega)
          obtain ⟨hne, hdig, hval⟩ := hrec
          refine ⟨by simp, ?_, ?_⟩
          · intro c hc
            simp at hc
            rcases hc with hc | hc
            · subst hc
              exact isDigit_ofNat_digit _ (by omega)
            · exact hdig c hc
          · rw [List.reverse_cons, digitsVal_append, hval]
            simp [digitsVal, digitVal_ofNat (n % 10) (by omega)]
            omega

theorem natToChars_ne_nil (n : ℕ) : natToChars n ≠ [] := by
  have h := (natDigitsAux_spec n (n + 1) (by omega)).1
  simp [natToChars, natToCharsRev]
  exact h

theorem natToChars_digits (n : ℕ) : ∀ c ∈ natToChars n, isDigitChar c = true := by
  intro c hc
  have h := (natDigitsAux_spec n (n + 1) (by omega)).2.1
  simp [natToChars, natToCharsRev] at hc
  exact h c hc

theorem digitsVal_natToChars (n : ℕ) : digitsVal (natToChars n) = n :=
  (natDigitsAux_spec n (n + 1) (by omega)).2.2

theorem natToChars_head (n : ℕ) : ∃ d bs, natToChars n = d :: bs ∧ isDigitChar d = true := by
  cases h : natToChars n with
  | nil => exact absurd h (natToChars_ne_nil n)
  | cons d bs =>
      refine ⟨d, bs, rfl, natToChars_digits n d ?_⟩
      rw [h]
      simp

theorem natToChars_isEmpty (n : ℕ) : (natToChars n).isEmpty = false := by
  cases h : natToChars n with
  | nil => exact absurd h (natToChars_ne_nil n)
  | cons d bs => simp

theorem natDigitsAux_length (n : ℕ) : ∀ f e, n < f → n < 10 ^ e → 1 ≤ e →
    (natDigitsAux f n).length ≤ e := by
  induction n using Nat.strong_induction_on with
  | _ n ih =>
      intro f e hf hne he
      match f, hf with
      | f' + 1, _ =>
        by_cases h10 : n < 10
        · simp only [natDigitsAux, if_pos h10, List.length_singleton]
          omega
        · simp only [natDigitsAux, if_neg h10, List.length_cons]
          match e, he with
        | e' + 1, _ =>
          have he' : 1 ≤ e' := by
            by_contra hc
            have : e' = 0 := by omega
            subst this
            simp at hne
            omega
          have hdiv : n / 10 < 10 ^ e' := by
            rw [Nat.div_lt_iff_lt_mul (by omega)]
            calc n < 10 ^ (e' + 1) := hne
            _ = 10 ^ e' * 10 := by ring
          have := ih (n / 10) (by omega) f' e' (by omega) hdiv he'
          omega

theorem natToChars_length_le (n e : ℕ) (hn : n < 10 ^ e) (he : 1 ≤ e) :
    (natToChars n).length ≤ e := by
  simp only [natToChars, natToCharsRev, List.length_reverse]
  exact natDigitsAux_length n (n + 1) e (by omega) hn he

theorem digitsVal_replicate_zero (k : ℕ) : digitsVal (List.replicate k '0') = 0 := by
  induction k with
  | zero => rfl
  | succ k ih =>
      rw [List.replicate_succ]
      simp only [digitsVal, List.foldl_cons]
      have h0 : 0 * 10 + digitVal '0' = 0 := by decide
      rw [h0]
      exact ih

theorem natToCharsPadded_spec (n e : ℕ) (hn : n < 10 ^ e) (he : 1 ≤ e) :
    (∀ c ∈ natToCharsPadded n e, isDigitChar c = true) ∧
      (natToCharsPadded n e).length = e ∧ digitsVal (natToCharsPadded n e) = n := by
  have hlen := natToChars_length_le n e hn he
  refine ⟨?_, ?_, ?_⟩
  · intro c hc
    simp only [natToCharsPadded, List.mem_append, List.mem_replicate] at hc
    rcases hc with ⟨_, hc⟩ | hc
    · subst hc
      decide
    · exact natToChars_digits n c hc
  · simp only [natToCharsPadded, List.length_append, List.length_replicate]
    omega
  · rw [natToCharsPadded, digitsVal_append, digitsVal_replicate_zero, digitsVal_natToChars]
    ring

theorem takeWhile_append_all (p : Char → Bool) (a rest : List Char)
    (h : ∀ c ∈ a, p c = true) (h2 : ∀ c, rest.head? = some c → p c = false) :
    (a ++ rest).takeWhile p = a := by
  induction a with
  | nil =>
      cases rest with
      | nil => rfl
      | cons r t =>
          simp only [List.nil_append, List.takeWhile_cons, h2 r rfl]
          simp
  | cons x t ih =>
      have hx : p x = true := h x (by simp)
      simp only [List.cons_append, List.takeWhile_cons, hx]
      rw [ih (fun c hc => h c (by simp [hc]))]
      simp

theorem numToChars_eq (m : ℤ) (e : ℕ) :
    numToChars m e =
      (if m < 0 then ['-'] else []) ++
        (if e = 0 then natToChars m.natAbs
         else natToChars (m.natAbs / 10 ^ e) ++ '.' :: natToCharsPadded (m.natAbs % 10 ^ e) e) := by
  by_cases he : e = 0 <;> simp [numToChars, he]

theorem numBoundary_nil : numBoundary [] := by
  intro c hc
  simp at hc

theorem numBoundary_cons (c : Char) (r : List Char) (h1 : isDigitChar c = false)
    (h2 : c ≠ '.') : numBoundary (c :: r) := by
  intro c' hc
  simp at hc
  subst hc
  exact ⟨h1, h2⟩

theorem digit_ne (c : Char) (h : isDigitChar c = true) :
    ¬c = 'n' ∧ ¬c = 't' ∧ ¬c = 'f' ∧ ¬c = '"' ∧ ¬c = '[' ∧ ¬c = '\x7b' ∧ ¬c = '-' ∧
      ¬c = ']' ∧ ¬c = '\x7d' ∧ ¬c = '\n' := by
  refine ⟨?_, ?_, ?_, ?_, ?_, ?_, ?_, ?_, ?_, ?_⟩ <;>
    (intro hc; rw [hc] at h; exact absurd h (by decide))

theorem parseNumPos_rt0 (n : ℕ) (rest : List Char) (hrest : numBoundary rest) :
    parseNumPos (natToChars n ++ rest) = some ((n, 0), rest) := by
  have hds : (natToChars n ++ rest).takeWhile isDigitChar = natToChars n :=
    takeWhile_append_all _ _ _ (natToChars_digits n) (fun c hc => (hrest c hc).1)
  simp only [parseNumPos, hds, natToChars_isEmpty, Bool.false_eq_true, if_false,
    List.drop_left]
  cases rest with
  | nil => simp [digitsVal_natToChars]
  | cons r t =>
      have hr : ¬r = '.' := (hrest r rfl).2
      rw [List.head?_cons, if_neg (by simp [hr])]
      simp [digitsVal_natToChars]

theorem parseNumPos_rtDec (a b e : ℕ) (rest : List Char) (he : 1 ≤ e) (hb : b < 10 ^ e)
    (hrest : numBoundary rest) :
    parseNumPos (natToChars a ++ '.' :: (natToCharsPadded b e ++ rest)) =
      some ((a * 10 ^ e + b, e), rest) := by
  obtain ⟨hpd, hplen, hpval⟩ := natToCharsPadded_spec b e hb he
  have hds : (natToChars a ++ '.' :: (natToCharsPadded b e ++ rest)).takeWhile isDigitChar
      = natToChars a := by
    refine takeWhile_append_all _ _ _ (natToChars_digits a) ?_
    intro c hc
    simp at hc
    subst hc
    decide
  have hfs : (natToCharsPadded b e ++ rest).takeWhile isDigitChar = natToCharsPadded b e :=
    takeWhile_append_all _ _ _ hpd (fun c hc => (hrest c hc).1)
  have hpne : (natToCharsPadded b e).isEmpty = false := by
    cases h : natToCharsPadded b e with
    | nil =>
        rw [h] at hplen
        simp at hplen
        omega
    | cons d bs => simp
  simp only [parseNumPos, hds, natToChars_isEmpty, Bool.false_eq_true, if_false,
    List.drop_left, List.head?_cons, List.tail_cons, hfs, hpne]
  simp only [if_true, Bool.false_eq_true, if_false]
  rw [digitsVal_natToChars, hplen, hpval]

theorem parseNum_rt (m : ℤ) (e : ℕ) (rest : List Char) (hrest : numBoundary rest) :
    parseNum (numToChars m e ++ rest) = some ((m, e), rest) := by
  have hsplit : 10 ^ e * (m.natAbs / 10 ^ e) + m.natAbs % 10 ^ e = m.natAbs :=
    Nat.div_add_mod _ _
  have hmod : m.natAbs % 10 ^ e < 10 ^ e := Nat.mod_lt _ (by positivity)
  rw [numToChars_eq]
  by_cases hm : m < 0
  · have habs : (m.natAbs : ℤ) = -m := Int.ofNat_natAbs_of_nonpos (le_of_lt hm)
    rw [if_pos hm]
    by_cases he : e = 0
    · subst he
      rw [if_pos rfl]
      have hshape : (['-'] ++ natToChars m.natAbs) ++ rest
          = '-' :: (natToChars m.natAbs ++ rest) := by simp
      rw [hshape, parseNum, List.head?_cons, if_pos rfl, List.tail_cons,
        parseNumPos_rt0 _ _ hrest]
      simp [habs]
    · rw [if_neg he]
      have hshape : (['-'] ++ (natToChars (m.natAbs / 10 ^ e) ++
            '.' :: natToCharsPadded (m.natAbs % 10 ^ e) e)) ++ rest
          = '-' :: (natToChars (m.natAbs / 10 ^ e) ++
              '.' :: (natToCharsPadded (m.natAbs % 10 ^ e) e ++ rest)) := by simp
      rw [hshape, parseNum, List.head?_cons, if_pos rfl, List.tail_cons,
        parseNumPos_rtDec _ _ _ _ (by omega) hmod hrest]
      simp only [Option.map_some']
      have : ((m.natAbs / 10 ^ e) * 10 ^ e + m.natAbs % 10 ^ e : ℕ) = m.natAbs := by
        rw [Nat.mul_comm]
        exact Nat.div_add_mod _ _
      rw [this]
      simp [habs]
  · have hm' : 0 ≤ m := not_lt.mp hm
    have habs : (m.natAbs : ℤ) = m := Int.natAbs_of_nonneg hm'
    rw [if_neg hm, List.nil_append]
    by_cases he : e = 0
    · subst he
      rw [if_pos rfl]
      obtain ⟨d, bs, hd, hdig⟩ := natToChars_head m.natAbs
      have hhead : (natToChars m.natAbs ++ rest).head? = some d := by
        rw [hd]
        simp
      rw [parseNum, hhead, if_neg (by simp [(digit_ne d hdig).2.2.2.2.2.2.1]),
        parseNumPos_rt0 _ _ hrest]
      simp [habs]
    · rw [if_neg he]
      have hshape : (natToChars (m.natAbs / 10 ^ e) ++
            '.' :: natToCharsPadded (m.natAbs % 10 ^ e) e) ++ rest
          = natToChars (m.natAbs / 10 ^ e) ++
              '.' :: (natToCharsPadded (m.natAbs % 10 ^ e) e ++ rest) := by simp
      obtain ⟨d, bs, hd, hdig⟩ := natToChars_head (m.natAbs / 10 ^ e)
      have hhead : (natToChars (m.natAbs / 10 ^ e) ++
          '.' :: (natToCharsPadded (m.natAbs % 10 ^ e) e ++ rest)).head? = some d := by
        rw [hd]
        simp
      rw [hshape, parseNum, hhead, if_neg (by simp [(digit_ne d hdig).2.2.2.2.2.2.1]),
        parseNumPos_rtDec _ _ _ _ (by omega) hmod hrest]
      simp only [Option.map_some']
      have : ((m.natAbs / 10 ^ e) * 10 ^ e + m.natAbs % 10 ^ e : ℕ) = m.natAbs := by
        rw [Nat.mul_comm]
        exact Nat.div_add_mod _ _
      rw [this]
      simp [habs]

theorem numToChars_head (m : ℤ) (e : ℕ) :
    ∃ d bs, numToChars m e = d :: bs ∧ (d = '-' ∨ isDigitChar d = true) := by
  rw [numToChars_eq]
  by_cases hm : m < 0
  · rw [if_pos hm]
    exact ⟨'-', _, rfl, Or.inl rfl⟩
  · rw [if_neg hm, List.nil_append]
    by_cases he : e = 0
    · rw [if_pos he]
      obtain ⟨d, bs, hd, hdig⟩ := natToChars_head m.natAbs
      exact ⟨d, bs, hd, Or.inr hdig⟩
    · rw [if_neg he]
      obtain ⟨d, bs, hd, hdig⟩ := natToChars_head (m.natAbs / 10 ^ e)
      rw [hd]
      exact ⟨d, _, rfl, Or.inr hdig⟩

theorem dumpsChars_head (j : Json) :
    ∃ d bs, dumpsChars j = d :: bs ∧ ¬d = ']' ∧ ¬d = '\x7d' := by
  cases j with
  | null => exact ⟨'n', _, rfl, by decide, by decide⟩
  | bool b =>
      cases b with
      | true => exact ⟨'t', _, rfl, by decide, by decide⟩
      | false => exact ⟨'f', _, rfl, by decide, by decide⟩
  | num m e =>
      obtain ⟨d, bs, hd, hcase⟩ := numToChars_head m e
      refine ⟨d, bs, by rw [show dumpsChars (Json.num m e) = numToChars m e from rfl, hd], ?_, ?_⟩
      · rcases hcase with h | h
        · subst h
          decide
        · exact (digit_ne d h).2.2.2.2.2.2.2.1
      · rcases hcase with h | h
        · subst h
          decide
        · exact (digit_ne d h).2.2.2.2.2.2.2.2.1
  | str s => exact ⟨'"', _, rfl, by decide, by decide⟩
  | arr l => exact ⟨'[', _, rfl, by decide, by decide⟩
  | obj l => exact ⟨'\x7b', _, rfl, by decide, by decide⟩

theorem dumpsObj_head (kv : String × Json) (tl : List (String × Json)) :
    ∃ cs, dumpsObj (kv :: tl) = '"' :: cs := by
  cases tl with
  | nil => exact ⟨_, rfl⟩
  | cons y tl2 => exact ⟨_, rfl⟩

theorem jsonSize_pos (j : Json) : 1 ≤ jsonSize j := by
  cases j <;> simp [jsonSize]

theorem jsonSizeList_pos (l : List Json) (h : l ≠ []) : 1 ≤ jsonSizeList l := by
  cases l with
  | nil => exact absurd rfl h
  | cons x tl =>
      simp [jsonSizeList]

theorem jsonSizeObj_pos (l : List (String × Json)) (h : l ≠ []) : 1 ≤ jsonSizeObj l := by
  cases l with
  | nil => exact absurd rfl h
  | cons x tl =>
      simp [jsonSizeObj]

theorem isPrefixOf_append (pre rest : List Char) : pre.isPrefixOf (pre ++ rest) = true := by
  induction pre with
  | nil => simp [List.isPrefixOf]
  | cons x t ih => simp [List.isPrefixOf, ih]

theorem hexDigit_ne_newline (n : ℕ) (h : n < 16) : hexDigit n ≠ '\n' := by
  intro hc
  have := congrArg Char.toNat hc
  unfold hexDigit at this
  rw [show ('\n' : Char).toNat = 10 from by decide] at this
  by_cases h10 : n < 10
  · rw [if_pos h10, toNat_ofNat_small _ (by omega)] at this
    omega
  · rw [if_neg h10, toNat_ofNat_small _ (by omega)] at this
    omega

theorem newline_not_mem_hex4 (n : ℕ) : '\n' ∉ hex4 n := by
  intro hc
  simp only [hex4, List.mem_cons, List.not_mem_nil, or_false] at hc
  rcases hc with h | h | h | h <;>
    exact hexDigit_ne_newline _ (Nat.mod_lt _ (by omega)) h.symm

theorem newline_not_mem_escapeChar (c : Char) : '\n' ∉ escapeChar c := by
  unfold escapeChar
  by_cases h1 : c = '"'
  · simp [h1]
  rw [if_neg h1]
  by_cases h2 : c = '\\'
  · simp [h2]
  rw [if_neg h2]
  by_cases h3 : c = '\n'
  · simp [h3]
  rw [if_neg h3]
  by_cases h4 : c = '\x0d'
  · simp [h4]
  rw [if_neg h4]
  by_cases h5 : c = '\t'
  · simp [h5]
  rw [if_neg h5]
  by_cases h6 : c = '\x08'
  · simp [h6]
  rw [if_neg h6]
  by_cases h7 : c = '\x0c'
  · simp [h7]
  rw [if_neg h7]
  by_cases h8 : c.toNat < 32 || 127 ≤ c.toNat
  · rw [if_pos h8]
    by_cases h9 : c.toNat < 65536
    · rw [if_pos h9]
      intro hc
      simp only [List.mem_cons] at hc
      rcases hc with h | h | h
      · exact absurd h.symm (by decide)
      · exact absurd h.symm (by decide)
      · exact newline_not_mem_hex4 _ h
    · rw [if_neg h9]
      intro hc
      simp only [List.mem_append, List.mem_cons] at hc
      rcases hc with (h | h | h) | (h | h | h)
      · exact absurd h.symm (by decide)
      · exact absurd h.symm (by decide)
      · exact newline_not_mem_hex4 _ h
      · exact absurd h.symm (by decide)
      · exact absurd h.symm (by decide)
      · exact newline_not_mem_hex4 _ h
  · rw [if_neg h8]
    intro hc
    simp only [List.mem_singleton] at hc
    subst hc
    exact h3 rfl

theorem newline_not_mem_natToChars (n : ℕ) : '\n' ∉ natToChars n := by
  intro hc
  exact (digit_ne _ (natToChars_digits n _ hc)).2.2.2.2.2.2.2.2.2 rfl

theorem newline_not_mem_padded (n e : ℕ) : '\n' ∉ natToCharsPadded n e := by
  intro hc
  simp only [natToCharsPadded, List.mem_append, List.mem_replicate] at hc
  rcases hc with ⟨_, h⟩ | h
  · exact absurd h (by decide)
  · exact newline_not_mem_natToChars n h

theorem newline_not_mem_numToChars (m : ℤ) (e : ℕ) : '\n' ∉ numToChars m e := by
  rw [numToChars_eq]
  intro hc
  rcases List.mem_append.mp hc with h | h
  · by_cases hm : m < 0
    · rw [if_pos hm] at h
      simp at h
    · rw [if_neg hm] at h
      simp at h
  · by_cases he : e = 0
    · rw [if_pos he] at h
      exact newline_not_mem_natToChars _ h
    · rw [if_neg he] at h
      rcases List.mem_append.mp h with h2 | h2
      · exact newline_not_mem_natToChars _ h2
      · rcases List.mem_cons.mp h2 with h3 | h3
        · exact absurd h3 (by decide)
        · exact newline_not_mem_padded _ _ h3

theorem newline_not_mem_escapeStr (s : String) : '\n' ∉ escapeStr s := by
  intro hc
  rw [show escapeStr s = '"' :: (s.data.flatMap escapeChar ++ ['"']) from rfl] at hc
  rcases List.mem_cons.mp hc with h | h
  · exact absurd h (by decide)
  · rcases List.mem_append.mp h with h2 | h2
    · rcases List.mem_flatMap.mp h2 with ⟨c, _, h3⟩
      exact newline_not_mem_escapeChar c h3
    · simp at h2

theorem dumps_no_newline_size (N : ℕ) :
    (∀ j, jsonSize j ≤ N → '\n' ∉ dumpsChars j) ∧
      (∀ l, jsonSizeList l ≤ N → '\n' ∉ dumpsList l) ∧
      (∀ l, jsonSizeObj l ≤ N → '\n' ∉ dumpsObj l) := by
  induction N with
  | zero =>
      refine ⟨?_, ?_, ?_⟩
      · intro j hj
        have := jsonSize_pos j
        omega
      · intro l hl
        cases l with
        | nil => simp [dumpsList]
        | cons x tl =>
            have := jsonSizeList_pos (x :: tl) (by simp)
            omega
      · intro l hl
        cases l with
        | nil => simp [dumpsObj]
        | cons x tl =>
            have := jsonSizeObj_pos (x :: tl) (by simp)
            omega
  | succ N ihN =>
      obtain ⟨ihj, ihl, iho⟩ := ihN
      refine ⟨?_, ?_, ?_⟩
      · intro j hj
        cases j with
        | null => decide
        | bool b => cases b <;> decide
        | num m e => exact newline_not_mem_numToChars m e
        | str s => exact newline_not_mem_escapeStr s
        | arr l =>
            have hsz : jsonSizeList l ≤ N := by
              have : jsonSize (Json.arr l) = jsonSizeList l + 1 := rfl
              omega
            intro hc
            rw [show dumpsChars (Json.arr l) = '[' :: dumpsList l ++ [']'] from rfl] at hc
            rcases List.mem_cons.mp hc with h | h
            · exact absurd h (by decide)
            · rcases List.mem_append.mp h with h2 | h2
              · exact ihl l hsz h2
              · simp at h2
        | obj l =>
            have hsz : jsonSizeObj l ≤ N := by
              have : jsonSize (Json.obj l) = jsonSizeObj l + 1 := rfl
              omega
            intro hc
            rw [show dumpsChars (Json.obj l) = '\x7b' :: dumpsObj l ++ ['\x7d'] from rfl] at hc
            rcases List.mem_cons.mp hc with h | h
            · exact absurd h (by decide)
            · rcases List.mem_append.mp h with h2 | h2
              · exact iho l hsz h2
              · simp at h2
      · intro l hl
        cases l with
        | nil => simp [dumpsList]
        | cons x tl =>
            have hsx : jsonSize x ≤ N := by
              have : jsonSizeList (x :: tl) = jsonSize x + jsonSizeList tl + 1 := rfl
              omega
            cases tl with
            | nil =>
                rw [show dumpsList [x] = dumpsChars x from rfl]
                exact ihj x hsx
            | cons y tl2 =>
                have hst : jsonSizeList (y :: tl2) ≤ N := by
                  have h1 : jsonSizeList (x :: y :: tl2)
                      = jsonSize x + jsonSizeList (y :: tl2) + 1 := rfl
                  omega
                intro hc
                rw [show dumpsList (x :: y :: tl2)
                    = dumpsChars x ++ ',' :: dumpsList (y :: tl2) from rfl] at hc
                rcases List.mem_append.mp hc with h | h
                · exact ihj x hsx h
                · rcases List.mem_cons.mp h with h2 | h2
                  · exact absurd h2 (by decide)
                  · exact ihl (y :: tl2) hst h2
      · intro l hl
        cases l with
        | nil => simp [dumpsObj]
        | cons kv tl =>
            have hsv : jsonSize kv.2 ≤ N := by
              have : jsonSizeObj (kv :: tl) = jsonSize kv.2 + jsonSizeObj tl + 1 := rfl
              omega
            cases tl with
            | nil =>
                intro hc
                rw [show dumpsObj [kv] = escapeStr kv.1 ++ ':' :: dumpsChars kv.2 from rfl] at hc
                rcases List.mem_append.mp hc with h | h
                · exact newline_not_mem_escapeStr kv.1 h
                · rcases List.mem_cons.mp h with h2 | h2
                  · exact absurd h2 (by decide)
                  · exact ihj kv.2 hsv h2
            | cons y tl2 =>
                have hst : jsonSizeObj (y :: tl2) ≤ N := by
                  have h1 : jsonSizeObj (kv :: y :: tl2)
                      = jsonSize kv.2 + jsonSizeObj (y :: tl2) + 1 := rfl
                  omega
                intro hc
                rw [show dumpsObj (kv :: y :: tl2)
                    = escapeStr kv.1 ++ ':' :: dumpsChars kv.2 ++ ',' :: dumpsObj (y :: tl2)
                    from rfl] at hc
                rcases List.mem_append.mp hc with h | h
                · rcases List.mem_append.mp h with h1 | h1
                  · exact newline_not_mem_escapeStr kv.1 h1
                  · rcases List.mem_cons.mp h1 with h2 | h2
                    · exact absurd h2 (by decide)
                    · exact ihj kv.2 hsv h2
                · rcases List.mem_cons.mp h with h2 | h2
                  · exact absurd h2 (by decide)
                  · exact iho (y :: tl2) hst h2

theorem dumps_no_newline (j : Json) : '\n' ∉ dumpsChars j :=
  (dumps_no_newline_size (jsonSize j)).1 j (le_refl _)

theorem parse_dumps (fuel : ℕ) :
    (∀ j, jsonSize j ≤ fuel → ∀ rest, numBoundary rest →
      parseVal fuel (dumpsChars j ++ rest) = some (j, rest)) ∧
      (∀ l, l ≠ [] → jsonSizeList l ≤ fuel → ∀ rest,
        parseElems fuel (dumpsList l ++ ']' :: rest) = some (l, rest)) ∧
      (∀ l, l ≠ [] → jsonSizeObj l ≤ fuel → ∀ rest,
        parseMembers fuel (dumpsObj l ++ '\x7d' :: rest) = some (l, rest)) := by
  induction fuel with
  | zero =>
      refine ⟨?_, ?_, ?_⟩
      · intro j hj
        have := jsonSize_pos j
        omega
      · intro l hl hsz
        have := jsonSizeList_pos l hl
        omega
      · intro l hl hsz
        have := jsonSizeObj_pos l hl
        omega
  | succ f ih =>
      obtain ⟨ihv, ihl, iho⟩ := ih
      refine ⟨?_, ?_, ?_⟩
      · intro j hj rest hb
        cases j with
        | null =>
            rw [show dumpsChars Json.null ++ rest = 'n' :: (['u', 'l', 'l'] ++ rest) from rfl,
              parseVal.eq_3, if_pos rfl, isPrefixOf_append, if_pos rfl]
            rfl
        | bool b =>
            cases b with
            | true =>
                rw [show dumpsChars (Json.bool true) ++ rest
                    = 't' :: (['r', 'u', 'e'] ++ rest) from rfl,
                  parseVal.eq_3, if_neg (by decide), if_pos rfl, isPrefixOf_append, if_pos rfl]
                rfl
            | false =>
                rw [show dumpsChars (Json.bool false) ++ rest
                    = 'f' :: (['a', 'l', 's', 'e'] ++ rest) from rfl,
                  parseVal.eq_3, if_neg (by decide), if_neg (by decide), if_pos rfl,
                  isPrefixOf_append, if_pos rfl]
                rfl
        | num m e =>
            obtain ⟨d, bs, hd, hcase⟩ := numToChars_head m e
            have h6 : ¬d = 'n' ∧ ¬d = 't' ∧ ¬d = 'f' ∧ ¬d = '"' ∧ ¬d = '[' ∧ ¬d = '\x7b' := by
              rcases hcase with h | h
              · subst h
                exact ⟨by decide, by decide, by decide, by decide, by decide, by decide⟩
              · have hn := digit_ne d h
                exact ⟨hn.1, hn.2.1, hn.2.2.1, hn.2.2.2.1, hn.2.2.2.2.1, hn.2.2.2.2.2.1⟩
            have hshape : dumpsChars (Json.num m e) ++ rest = d :: (bs ++ rest) := by
              rw [show dumpsChars (Json.num m e) = numToChars m e from rfl, hd, List.cons_append]
            rw [hshape, parseVal.eq_3, if_neg h6.1, if_neg h6.2.1, if_neg h6.2.2.1,
              if_neg h6.2.2.2.1, if_neg h6.2.2.2.2.1, if_neg h6.2.2.2.2.2,
              show d :: (bs ++ rest) = numToChars m e ++ rest from by rw [hd, List.cons_append],
              parseNum_rt m e rest hb]
            rfl
        | str s =>
            have hshape : dumpsChars (Json.str s) ++ rest
                = '"' :: (s.data.flatMap escapeChar ++ '"' :: rest) := by
              rw [show dumpsChars (Json.str s)
                  = '"' :: (s.data.flatMap escapeChar ++ ['"']) from rfl]
              simp
            rw [hshape, parseVal.eq_3, if_neg (by decide), if_neg (by decide),
              if_neg (by decide), if_pos rfl, parseStrAcc_rt s.data [] rest]
            rfl
        | arr l =>
            cases l with
            | nil =>
                rw [show dumpsChars (Json.arr []) ++ rest = '[' :: (']' :: rest) from rfl,
                  parseVal.eq_3, if_neg (by decide), if_neg (by decide), if_neg (by decide),
                  if_neg (by decide), if_pos rfl,
                  if_pos (show ((']' : Char) :: rest).head? = some ']' from rfl)]
                rfl
            | cons x tl =>
                obtain ⟨d, bs, hd, hne1, hne2⟩ := dumpsChars_head x
                have hhead : (dumpsList (x :: tl) ++ ']' :: rest).head? = some d := by
                  cases tl with
                  | nil =>
                      rw [show dumpsList [x] = dumpsChars x from rfl, hd]
                      simp
                  | cons y tl2 =>
                      rw [show dumpsList (x :: y :: tl2)
                          = dumpsChars x ++ ',' :: dumpsList (y :: tl2) from rfl, hd]
                      simp
                have hshape : dumpsChars (Json.arr (x :: tl)) ++ rest
                    = '[' :: (dumpsList (x :: tl) ++ ']' :: rest) := by
                  rw [show dumpsChars (Json.arr (x :: tl))
                      = '[' :: dumpsList (x :: tl) ++ [']'] from rfl]
                  simp
                have hsz : jsonSizeList (x :: tl) ≤ f := by
                  have h1 : jsonSize (Json.arr (x :: tl)) = jsonSizeList (x :: tl) + 1 := rfl
                  omega
                rw [hshape, parseVal.eq_3, if_neg (by decide), if_neg (by decide),
                  if_neg (by decide), if_neg (by decide), if_pos rfl,
                  if_neg (by rw [hhead]; simp [hne1]),
                  ihl (x :: tl) (by simp) hsz rest]
                rfl
        | obj l =>
            cases l with
            | nil =>
                rw [show dumpsChars (Json.obj []) ++ rest = '\x7b' :: ('\x7d' :: rest) from rfl,
                  parseVal.eq_3, if_neg (by decide), if_neg (by decide), if_neg (by decide),
                  if_neg (by decide), if_neg (by decide), if_pos rfl,
                  if_pos (show (('\x7d' : Char) :: rest).head? = some '\x7d' from rfl)]
                rfl
            | cons kv tl =>
                obtain ⟨cs0, hcs0⟩ := dumpsObj_head kv tl
                have hhead : (dumpsObj (kv :: tl) ++ '\x7d' :: rest).head? = some '"' := by
                  rw [hcs0]
                  simp
                have hshape : dumpsChars (Json.obj (kv :: tl)) ++ rest
                    = '\x7b' :: (dumpsObj (kv :: tl) ++ '\x7d' :: rest) := by
                  rw [show dumpsChars (Json.obj (kv :: tl))
                      = '\x7b' :: dumpsObj (kv :: tl) ++ ['\x7d'] from rfl]
                  simp
                have hsz : jsonSizeObj (kv :: tl) ≤ f := by
                  have h1 : jsonSize (Json.obj (kv :: tl)) = jsonSizeObj (kv :: tl) + 1 := rfl
                  omega
                rw [hshape, parseVal.eq_3, if_neg (by decide), if_neg (by decide),
                  if_neg (by decide), if_neg (by decide), if_neg (by decide), if_pos rfl,
                  if_neg (by rw [hhead]; decide),
                  iho (kv :: tl) (by simp) hsz rest]
                rfl
      · intro l hl hsz rest
        cases l with
        | nil => exact absurd rfl hl
        | cons x tl =>
            cases tl with
            | nil =>
                have hsx : jsonSize x ≤ f := by
                  have h1 : jsonSizeList [x] = jsonSize x + 0 + 1 := rfl
                  omega
                rw [parseElems.eq_2,
                  show dumpsList [x] ++ ']' :: rest = dumpsChars x ++ ']' :: rest from rfl,
                  ihv x hsx (']' :: rest) (numBoundary_cons _ _ (by decide) (by decide))]
                rfl
            | cons y tl2 =>
                have hsx : jsonSize x ≤ f ∧ jsonSizeList (y :: tl2) ≤ f := by
                  have h1 : jsonSizeList (x :: y :: tl2)
                      = jsonSize x + jsonSizeList (y :: tl2) + 1 := rfl
                  constructor <;> omega
                have hshape : dumpsList (x :: y :: tl2) ++ ']' :: rest
                    = dumpsChars x ++ ',' :: (dumpsList (y :: tl2) ++ ']' :: rest) := by
                  rw [show dumpsList (x :: y :: tl2)
                      = dumpsChars x ++ ',' :: dumpsList (y :: tl2) from rfl]
                  simp
                rw [parseElems.eq_2, hshape,
                  ihv x hsx.1 (',' :: (dumpsList (y :: tl2) ++ ']' :: rest))
                    (numBoundary_cons _ _ (by decide) (by decide))]
                show (match parseElems f (dumpsList (y :: tl2) ++ ']' :: rest) with
                  | none => none
                  | some (vs, r3) => some (x :: vs, r3)) = some (x :: y :: tl2, rest)
                rw [ihl (y :: tl2) (by simp) hsx.2 rest]
      · intro l hl hsz rest
        cases l with
        | nil => exact absurd rfl hl
        | cons kv tl =>
            cases tl with
            | nil =>
                have hsv : jsonSize kv.2 ≤ f := by
                  have h1 : jsonSizeObj [kv] = jsonSize kv.2 + 0 + 1 := rfl
                  omega
                have hshape : dumpsObj [kv] ++ '\x7d' :: rest
                    = '"' :: (kv.1.data.flatMap escapeChar ++
                        '"' :: (':' :: (dumpsChars kv.2 ++ '\x7d' :: rest))) := by
                  rw [show dumpsObj [kv] = escapeStr kv.1 ++ ':' :: dumpsChars kv.2 from rfl,
                    show escapeStr kv.1
                      = '"' :: (kv.1.data.flatMap escapeChar ++ ['"']) from rfl]
                  simp
                rw [hshape, parseMembers.eq_2, parseStrAcc_rt kv.1.data []]
                show (match parseVal f (dumpsChars kv.2 ++ '\x7d' :: rest) with
                  | none => none
                  | some (v', r) =>
                      match r with
                      | ',' :: r3 =>
                          match parseMembers f r3 with
                          | none => none
                          | some (kvs, r4) => some ((kv.1, v') :: kvs, r4)
                      | '\x7d' :: r3 => some ([(kv.1, v')], r3)
                      | _ => none) = some ([kv], rest)
                rw [ihv kv.2 hsv ('\x7d' :: rest)
                  (numBoundary_cons _ _ (by decide) (by decide))]
                rfl
            | cons y tl2 =>
                have hsv : jsonSize kv.2 ≤ f ∧ jsonSizeObj (y :: tl2) ≤ f := by
                  have h1 : jsonSizeObj (kv :: y :: tl2)
                      = jsonSize kv.2 + jsonSizeObj (y :: tl2) + 1 := rfl
                  constructor <;> omega
                have hshape : dumpsObj (kv :: y :: tl2) ++ '\x7d' :: rest
                    = '"' :: (kv.1.data.flatMap escapeChar ++
                        '"' :: (':' :: (dumpsChars kv.2 ++
                          ',' :: (dumpsObj (y :: tl2) ++ '\x7d' :: rest)))) := by
                  rw [show dumpsObj (kv :: y :: tl2)
                      = (escapeStr kv.1 ++ ':' :: dumpsChars kv.2) ++
                          ',' :: dumpsObj (y :: tl2) from rfl,
                    show escapeStr kv.1
                      = '"' :: (kv.1.data.flatMap escapeChar ++ ['"']) from rfl]
                  simp
                rw [hshape, parseMembers.eq_2, parseStrAcc_rt kv.1.data []]
                show (match parseVal f (dumpsChars kv.2 ++
                    ',' :: (dumpsObj (y :: tl2) ++ '\x7d' :: rest)) with
                  | none => none
                  | some (v', r) =>
                      match r with
                      | ',' :: r3 =>
                          match parseMembers f r3 with
                          | none => none
                          | some (kvs, r4) => some ((kv.1, v') :: kvs, r4)
                      | '\x7d' :: r3 => some ([(kv.1, v')], r3)
                      | _ => none) = some (kv :: y :: tl2, rest)
                rw [ihv kv.2 hsv.1 (',' :: (dumpsObj (y :: tl2) ++ '\x7d' :: rest))
                  (numBoundary_cons _ _ (by decide) (by decide))]
                show (match parseMembers f (dumpsObj (y :: tl2) ++ '\x7d' :: rest) with
                  | none => none
                  | some (kvs, r4) => some ((kv.1, kv.2) :: kvs, r4))
                    = some (kv :: y :: tl2, rest)
                rw [iho (y :: tl2) (by simp) hsv.2 rest]

theorem toJson_snapW : toJson snapW = some jW := by rfl

/-- Claim C8: on a recognized GET the emitted response is the compact JSON
serialization of the snapshot followed by a single newline; the serialization
itself contains no newline character, so the response is exactly one line with
exactly one trailing newline, and the line parses back as the one JSON value
that was serialized. -/
theorem wire_framing (snap : Snapshot) (j : Json) (hj : toJson snap = some j) :
    serveResponse snap = some (dumps j ++ "\n") ∧
      (dumps j).data.count '\n' = 0 ∧
      (dumps j ++ "\n").data.count '\n' = 1 ∧
      (dumps j ++ "\n").data.getLast? = some '\n' ∧
      parseVal (jsonSize j) (dumps j).data = some (j, []) := by
  have hnl : '\n' ∉ dumpsChars j := dumps_no_newline j
  have hdata : (dumps j ++ "\n").data = dumpsChars j ++ ['\n'] := rfl
  refine ⟨?_, ?_, ?_, ?_, ?_⟩
  · rw [serveResponse, hj, Option.map_some']
  · exact List.count_eq_zero.mpr hnl
  · rw [hdata, List.count_append, List.count_eq_zero.mpr hnl]
    rfl
  · rw [hdata, List.getLast?_concat]
  · have h := (parse_dumps (jsonSize j)).1 j le_rfl [] numBoundary_nil
    rwa [List.append_nil] at h

theorem wire_framing_witness :
    serveResponse snapW = some (dumps jW ++ "\n") ∧
      (dumps jW).data.count '\n' = 0 ∧
      (dumps jW ++ "\n").data.count '\n' = 1 ∧
      (dumps jW ++ "\n").data.getLast? = some '\n' ∧
      parseVal (jsonSize jW) (dumps jW).data = some (jW, []) :=
  wire_framing snapW jW toJson_snapW
